import Mathlib

/-!
pingitV2: the rolling statistics engine of `server.js`.

A shallow embedding of the probe pipeline of `server.js` (`parsePing`,
`ping`, `pruneHistory`, `updateStats`, `saveStats`, the startup load and
`uptimeStats`) together with the properties of it that were checked.

Modelling conventions.

* A JavaScript number is an IEEE 754 double: `NaN`, one of the two infinities,
  or a finite value, kept as the rational it denotes (the two zeros are one
  value).  Every arithmetic operation of the source computes the exact result
  and rounds it to the nearest double, ties to even (`roundDouble`), with
  overflow to infinity.
* Time stamps are integer milliseconds and the counters are array lengths;
  both are far below 2^53, where doubles are exact, and are kept as integers.
* An object field of a window is absent, `null` or a number (`Field`); the
  `ttl` and `time` of a record are `null` (`none`) or a number.
* `Date.now()` is a parameter of every function that reads the clock.
* A file is modelled by the value `JSON.parse` reads back from it, absent
  files by `none`; `JSON.stringify` writes `NaN` and the infinities as `null`.
-/

namespace PingIt

/-! ## Numbers -/

/-- A JavaScript number: `NaN`, `Infinity`, `-Infinity` or a finite double, the
latter given by its exact value. -/
inductive JSNum where
  | nan : JSNum
  | posInf : JSNum
  | negInf : JSNum
  | num : ℚ → JSNum
  deriving DecidableEq

/-- The integer nearest to `y`, the even one when `y` is halfway between two. -/
def roundHalfEven (y : ℚ) : ℤ :=
  if y - ⌊y⌋ < 1 / 2 then ⌊y⌋
  else if 1 / 2 < y - ⌊y⌋ then ⌊y⌋ + 1
  else if ⌊y⌋ % 2 = 0 then ⌊y⌋
  else ⌊y⌋ + 1

/-- The binary exponent used for a magnitude `a`: the `e` with `2^e <= a < 2^(e+1)`,
and -1022 for the subnormal range below `2^-1022`. -/
def binade (a : ℚ) : ℤ := max (Int.log 2 a) (-1022)

/-- The spacing of the doubles around the magnitude `a` (53 significant bits). -/
def ulp (a : ℚ) : ℚ := (2 : ℚ) ^ (binade a - 52)

/-- The magnitude `a` rounded to the nearest multiple of its spacing, ties to even. -/
def roundMag (a : ℚ) : ℚ := (roundHalfEven (a / ulp a) : ℚ) * ulp a

/-- The double nearest to the real number `x` (round to nearest, ties to even):
an infinity when the rounded magnitude reaches `2^1024`. -/
def roundDouble (x : ℚ) : JSNum :=
  if (2 : ℚ) ^ (1024 : ℤ) ≤ roundMag |x| then (if x < 0 then JSNum.negInf else JSNum.posInf)
  else JSNum.num (if x < 0 then -roundMag |x| else roundMag |x|)

/-- The operator `+` on two numbers. -/
def JSNum.add : JSNum → JSNum → JSNum
  | JSNum.nan, _ => JSNum.nan
  | JSNum.posInf, JSNum.nan => JSNum.nan
  | JSNum.posInf, JSNum.negInf => JSNum.nan
  | JSNum.posInf, JSNum.posInf => JSNum.posInf
  | JSNum.posInf, JSNum.num _ => JSNum.posInf
  | JSNum.negInf, JSNum.nan => JSNum.nan
  | JSNum.negInf, JSNum.posInf => JSNum.nan
  | JSNum.negInf, JSNum.negInf => JSNum.negInf
  | JSNum.negInf, JSNum.num _ => JSNum.negInf
  | JSNum.num _, JSNum.nan => JSNum.nan
  | JSNum.num _, JSNum.posInf => JSNum.posInf
  | JSNum.num _, JSNum.negInf => JSNum.negInf
  | JSNum.num a, JSNum.num b => roundDouble (a + b)

/-- The operator `/` on two numbers.  A zero divisor is taken as `+0`; every
division of the source is guarded by `count ?`. -/
def JSNum.div : JSNum → JSNum → JSNum
  | JSNum.nan, _ => JSNum.nan
  | JSNum.posInf, JSNum.num b => if b < 0 then JSNum.negInf else JSNum.posInf
  | JSNum.posInf, _ => JSNum.nan
  | JSNum.negInf, JSNum.num b => if b < 0 then JSNum.posInf else JSNum.negInf
  | JSNum.negInf, _ => JSNum.nan
  | JSNum.num _, JSNum.nan => JSNum.nan
  | JSNum.num _, JSNum.posInf => JSNum.num 0
  | JSNum.num _, JSNum.negInf => JSNum.num 0
  | JSNum.num a, JSNum.num b =>
    if b = 0 then
      (if a = 0 then JSNum.nan else if 0 < a then JSNum.posInf else JSNum.negInf)
    else roundDouble (a / b)

/-- The operator `*` on two numbers. -/
def JSNum.mul : JSNum → JSNum → JSNum
  | JSNum.nan, _ => JSNum.nan
  | JSNum.posInf, JSNum.nan => JSNum.nan
  | JSNum.posInf, JSNum.posInf => JSNum.posInf
  | JSNum.posInf, JSNum.negInf => JSNum.negInf
  | JSNum.posInf, JSNum.num b =>
    if b = 0 then JSNum.nan else if 0 < b then JSNum.posInf else JSNum.negInf
  | JSNum.negInf, JSNum.nan => JSNum.nan
  | JSNum.negInf, JSNum.posInf => JSNum.negInf
  | JSNum.negInf, JSNum.negInf => JSNum.posInf
  | JSNum.negInf, JSNum.num b =>
    if b = 0 then JSNum.nan else if 0 < b then JSNum.negInf else JSNum.posInf
  | JSNum.num _, JSNum.nan => JSNum.nan
  | JSNum.num a, JSNum.posInf =>
    if a = 0 then JSNum.nan else if 0 < a then JSNum.posInf else JSNum.negInf
  | JSNum.num a, JSNum.negInf =>
    if a = 0 then JSNum.nan else if 0 < a then JSNum.negInf else JSNum.posInf
  | JSNum.num a, JSNum.num b => roundDouble (a * b)

/-- The method `Number.prototype.toFixed(f)` followed by `Number(...)`.  For a
finite `x` below `10^21` in magnitude the digits are those of the integer `n` for
which `n / 10^f` is closest to the exact value of `x`, the larger `n` on a tie (a
negative `x` is negated first and the sign put back), and `Number` reads the
decimal back as the nearest double.  Any other `x` is printed by `toString` and
read back unchanged. -/
def toFixed (f : Nat) : JSNum → JSNum
  | JSNum.nan => JSNum.nan
  | JSNum.posInf => JSNum.posInf
  | JSNum.negInf => JSNum.negInf
  | JSNum.num x =>
    if (10 : ℚ) ^ 21 ≤ |x| then JSNum.num x
    else if x < 0 then roundDouble (-((⌊(-x) * (10 : ℚ) ^ f + 1 / 2⌋ : ℤ) : ℚ) / (10 : ℚ) ^ f)
    else roundDouble (((⌊x * (10 : ℚ) ^ f + 1 / 2⌋ : ℤ) : ℚ) / (10 : ℚ) ^ f)

/-- The expression `v || 0` for a field `v` that is `null` or a number: `null`,
`NaN` and `0` are falsy. -/
def orZero : Option JSNum → JSNum
  | none => JSNum.num 0
  | some JSNum.nan => JSNum.num 0
  | some v => v

/-! ## Data model -/

/-- One entry of `stats.history`: `{ timestamp, datetime, success, ttl, time }`. -/
structure Record where
  timestamp : Int
  datetime : String
  success : Bool
  ttl : Option JSNum
  time : Option JSNum
  deriving DecidableEq

/-- A numeric field of a window object: absent, `null` or a number. -/
inductive Field where
  | absent : Field
  | null : Field
  | val : JSNum → Field
  deriving DecidableEq

/-- One window object of `stats`.  The initial objects carry `ttlSum` and
`timeSum`; the objects built by `calc` carry `avgTTL`, `avgTime` and `packetLoss`. -/
structure Window where
  count : Int
  success : Int
  fail : Int
  ttlSum : Field
  timeSum : Field
  avgTTL : Field
  avgTime : Field
  packetLoss : Field
  deriving DecidableEq

/-- The in-memory `stats` object. -/
structure Stats where
  tenMinutes : Window
  hour : Window
  day : Window
  week : Window
  month : Window
  history : List Record
  deriving DecidableEq

/-- The object literal `{ count: 0, success: 0, fail: 0, ttlSum: 0, timeSum: 0 }`. -/
def initialWindow : Window :=
  { count := 0, success := 0, fail := 0
    ttlSum := Field.val (JSNum.num 0), timeSum := Field.val (JSNum.num 0)
    avgTTL := Field.absent, avgTime := Field.absent, packetLoss := Field.absent }

/-- The initial value of `stats` (lines 32-39). -/
def initialStats : Stats :=
  { tenMinutes := initialWindow, hour := initialWindow, day := initialWindow,
    week := initialWindow, month := initialWindow, history := [] }

/-! ## Pruning and aggregation -/

/-- The function `pruneHistory`, with `now` the value of `Date.now()`. -/
def pruneHistory (now : Int) (s : Stats) : Stats :=
  { s with history :=
      s.history.filter (fun h => decide (h.timestamp ≥ now - 31 * 24 * 60 * 60 * 1000)) }

/-- The constant `ttlSum` of `calc`: `filtered.reduce((sum, h) => sum + (h.ttl || 0), 0)`. -/
def ttlSumOf (filtered : List Record) : JSNum :=
  filtered.foldl (fun sum h => JSNum.add sum (orZero h.ttl)) (JSNum.num 0)

/-- The constant `timeSum` of `calc`: `filtered.reduce((sum, h) => sum + (h.time || 0), 0)`. -/
def timeSumOf (filtered : List Record) : JSNum :=
  filtered.foldl (fun sum h => JSNum.add sum (orZero h.time)) (JSNum.num 0)

/-- The closure `calc` of `updateStats` (`calc` is a reserved word here), over the
history it reads. -/
def calcWindow (history : List Record) (since : Int) : Window :=
  let filtered := history.filter (fun h => decide (h.timestamp ≥ since))
  let count : Int := filtered.length
  let success : Int := (filtered.filter (fun h => h.success)).length
  let fail : Int := count - success
  let ttlSum := ttlSumOf filtered
  let timeSum := timeSumOf filtered
  { count := count
    success := success
    fail := fail
    ttlSum := Field.absent
    timeSum := Field.absent
    avgTTL := Field.val
      (if count ≠ 0 then toFixed 3 (JSNum.div ttlSum (JSNum.num count)) else JSNum.num 0)
    avgTime := Field.val
      (if count ≠ 0 then toFixed 3 (JSNum.div timeSum (JSNum.num count)) else JSNum.num 0)
    packetLoss := Field.val
      (if count ≠ 0 then
        JSNum.mul (JSNum.div (JSNum.num fail) (JSNum.num count)) (JSNum.num 100)
      else JSNum.num 0) }

/-- The function `updateStats`, with `now` the value of `Date.now()`. -/
def updateStats (now : Int) (s : Stats) : Stats :=
  let tenMinutesAgo := now - 10 * 60 * 1000
  let hourAgo := now - 60 * 60 * 1000
  let dayAgo := now - 24 * 60 * 60 * 1000
  let weekAgo := now - 7 * 24 * 60 * 60 * 1000
  let monthAgo := now - 30 * 24 * 60 * 60 * 1000
  { tenMinutes := calcWindow s.history tenMinutesAgo
    hour := calcWindow s.history hourAgo
    day := calcWindow s.history dayAgo
    week := calcWindow s.history weekAgo
    month := calcWindow s.history monthAgo
    history := s.history }

/-- The value `uptimeStats` returns: the window object spread, plus `uptime` and `downtime`. -/
structure Report where
  window : Window
  uptime : JSNum
  downtime : JSNum
  deriving DecidableEq

/-- The function `uptimeStats`. -/
def uptimeStats (statsObj : Window) : Report :=
  let count := statsObj.count
  let success := statsObj.success
  let fail := statsObj.fail
  { window := statsObj
    uptime :=
      if count ≠ 0 then
        toFixed 2 (JSNum.mul (JSNum.div (JSNum.num success) (JSNum.num count)) (JSNum.num 100))
      else JSNum.num 0
    downtime :=
      if count ≠ 0 then
        toFixed 2 (JSNum.mul (JSNum.div (JSNum.num fail) (JSNum.num count)) (JSNum.num 100))
      else JSNum.num 0 }

/-! ## Persistence -/

/-- What `JSON.stringify` followed by `JSON.parse` makes of a field that is `null`
or a number: `NaN` and the infinities are written as `null`, a finite number is
read back as it was. -/
def jsonNum : Option JSNum → Option JSNum
  | some (JSNum.num q) => some (JSNum.num q)
  | _ => none

/-- What `JSON.stringify` followed by `JSON.parse` makes of a record. -/
def jsonRecord (r : Record) : Record :=
  { r with ttl := jsonNum r.ttl, time := jsonNum r.time }

/-- What `JSON.stringify` followed by `JSON.parse` makes of a field of a window. -/
def jsonField : Field → Field
  | Field.absent => Field.absent
  | Field.val (JSNum.num q) => Field.val (JSNum.num q)
  | _ => Field.null

/-- What `JSON.stringify` followed by `JSON.parse` makes of a window object. -/
def jsonWindow (w : Window) : Window :=
  { w with ttlSum := jsonField w.ttlSum, timeSum := jsonField w.timeSum,
           avgTTL := jsonField w.avgTTL, avgTime := jsonField w.avgTime,
           packetLoss := jsonField w.packetLoss }

/-- The parsed content of `STATS_FILE`: the five window objects and, when the
file has one, a `history` key. -/
structure Summary where
  tenMinutes : Window
  hour : Window
  day : Window
  week : Window
  month : Window
  history : Option (List Record)
  deriving DecidableEq

/-- The three files of the probe pipeline; `none` is a file that does not exist. -/
structure Disk where
  statsFile : Option Summary
  historyFile : Option (List Record)
  failedFile : Option (List Record)
  deriving DecidableEq

/-- The function `saveStats`: the three files it writes. -/
def saveStats (s : Stats) : Disk :=
  let failed := s.history.filter (fun h => !h.success)
  { statsFile := some { tenMinutes := jsonWindow s.tenMinutes, hour := jsonWindow s.hour,
                        day := jsonWindow s.day, week := jsonWindow s.week,
                        month := jsonWindow s.month, history := none }
    historyFile := some (s.history.map jsonRecord)
    failedFile := some (failed.map jsonRecord) }

/-- The startup load (lines 41-49), from the initial value of `stats`. -/
def startupLoad (d : Disk) : Stats :=
  match d.statsFile with
  | some f =>
    { tenMinutes := f.tenMinutes, hour := f.hour, day := f.day, week := f.week,
      month := f.month
      history := match f.history with
                 | some h => h
                 | none => [] }
  | none =>
    match d.historyFile with
    | some h => { initialStats with history := h }
    | none => initialStats

/-! ## The probe -/

/-- Whether `s` starts with `marker`. -/
def startsWith : List Char → List Char → Bool
  | [], _ => true
  | _ :: _, [] => false
  | m :: ms, c :: cs => m == c && startsWith ms cs

/-- The capture group of `s.match(/marker([cls]+)/)`: the leftmost position at which
`marker` is followed by a character of the class, and there the longest run of such
characters; `none` when there is no such position. -/
def regexCapture (marker : List Char) (cls : Char → Bool) : List Char → Option (List Char)
  | [] => none
  | c :: cs =>
    let run := ((c :: cs).drop marker.length).takeWhile cls
    if startsWith marker (c :: cs) && !run.isEmpty then some run
    else regexCapture marker cls cs

/-- The integer a string of decimal digits denotes. -/
def digitsValue (digits : List Char) : Nat :=
  digits.foldl (fun n c => 10 * n + (c.toNat - 48)) 0

/-- The builtin `parseInt(digits, 10)` on a string of decimal digits: the double
nearest to the integer the digits denote. -/
def parseInt10 (digits : List Char) : JSNum :=
  roundDouble (digitsValue digits : ℚ)

/-- The builtin `parseFloat` on a string of digits and dots: the longest leading
`digits`, `digits.`, `digits.digits` or `.digits` is read and the double nearest to
the decimal it denotes is returned, and `NaN` when there is none. -/
def parseFloat (s : List Char) : JSNum :=
  let intPart := s.takeWhile Char.isDigit
  let fracPart :=
    match s.drop intPart.length with
    | '.' :: r => r.takeWhile Char.isDigit
    | _ => []
  if intPart.isEmpty && fracPart.isEmpty then JSNum.nan
  else roundDouble
    ((digitsValue intPart : ℚ) + (digitsValue fracPart : ℚ) / (10 : ℚ) ^ fracPart.length)

/-- The object `parsePing` returns. -/
structure Parsed where
  ttl : Option JSNum
  time : Option JSNum
  deriving DecidableEq

/-- The function `parsePing`. -/
def parsePing (stdout : String) : Parsed :=
  let ttlMatch := regexCapture ['t', 't', 'l', '='] Char.isDigit stdout.toList
  let timeMatch :=
    regexCapture ['t', 'i', 'm', 'e', '='] (fun c => c.isDigit || c == '.') stdout.toList
  { ttl := ttlMatch.map parseInt10
    time := timeMatch.map parseFloat }

/-- The record the callback of `ping` pushes on the history: `error` is the first
argument of the callback (`none` for `null`), `formatDateTime` the local-time
rendering of the source. -/
def probeRecord (formatDateTime : Int → String) (error : Option String) (stdout : String)
    (now : Int) : Record :=
  let success := !error.isSome
  let p := parsePing stdout
  { timestamp := now
    datetime := formatDateTime now
    success := success
    ttl := p.ttl
    time := p.time }

/-- The callback of `ping`: push, prune, update, save.  The three clock readings are
the ones of the callback, of `pruneHistory` and of `updateStats`. -/
def ping (formatDateTime : Int → String) (error : Option String) (stdout : String)
    (now nowPrune nowUpdate : Int) (s : Stats) : Stats × Disk :=
  let pushed := { s with history := s.history ++ [probeRecord formatDateTime error stdout now] }
  let updated := updateStats nowUpdate (pruneHistory nowPrune pushed)
  (updated, saveStats updated)

/-! ## Sample inputs -/

/-- The log of the scenario: a reply with TTL 64 after 10 ms, then a failed probe. -/
def scenarioLog : List Record :=
  [ { timestamp := 0, datetime := "1970-01-01 00:00:00", success := true,
      ttl := some (JSNum.num 64), time := some (JSNum.num 10) },
    { timestamp := 1000, datetime := "1970-01-01 00:00:01", success := false,
      ttl := none, time := none } ]

/-- The state after the first probe tick of a fresh process: one reply, read at
time 1000. -/
def afterFirstTick : Stats :=
  (ping (fun _ => "1970-01-01 00:00:01") none
    "64 bytes from 1.1.1.1: icmp_seq=1 ttl=57 time=11.4 ms" 1000 1000 1000 initialStats).1

/-- A disk with a history file only, holding the scenario log. -/
def historyOnlyDisk : Disk :=
  { statsFile := none, historyFile := some scenarioLog, failedFile := none }

/-- A log of one reply with TTL 0 and one failed probe. -/
def zeroTtlLog : List Record :=
  [ { timestamp := 0, datetime := "1970-01-01 00:00:00", success := true,
      ttl := some (JSNum.num 0), time := some (JSNum.num 1) },
    { timestamp := 1000, datetime := "1970-01-01 00:00:01", success := false,
      ttl := none, time := none } ]

/-- A reply with TTL 64 after 10 ms. -/
def replyRecord : Record :=
  { timestamp := 0, datetime := "1970-01-01 00:00:00", success := true,
    ttl := some (JSNum.num 64), time := some (JSNum.num 10) }

/-- A failed probe without output. -/
def failRecord : Record :=
  { timestamp := 1000, datetime := "1970-01-01 00:00:01", success := false,
    ttl := none, time := none }

/-- A log of 128000 replies with TTL 64 and one failed probe (a week of probes at
the default interval of 5 s). -/
def longRunLog : List Record :=
  List.replicate 128000 replyRecord ++ [failRecord]

/-- A log of 79 failed probes and one reply with TTL 63: the quotient 63 / 80 is
halfway between 0.787 and 0.788. -/
def tieLog : List Record :=
  List.replicate 79 failRecord ++
    [ { timestamp := 1000, datetime := "1970-01-01 00:00:01", success := true,
        ttl := some (JSNum.num 63), time := some (JSNum.num 10) } ]

/-- A log of 18 replies and 7 failed probes. -/
def lossLog : List Record :=
  List.replicate 18 replyRecord ++ List.replicate 7 failRecord

/-- The report of `ping -c 1` for a host that does not answer. -/
def noReplyReport : String :=
  "PING 10.0.0.1 (10.0.0.1) 56(84) bytes of data.\n\n--- 10.0.0.1 ping statistics ---\n1 packets transmitted, 0 received, 100% packet loss, time 0ms\n"

/-! ## Quantities the specification compares the aggregates with -/

/-- The TTL of a record as an exact number, `null` counted as 0. -/
def ttlValue (r : Record) : ℚ :=
  match r.ttl with
  | some (JSNum.num q) => q
  | _ => 0

/-- A TTL that is `null` or a natural number, as `parsePing` returns it for a
short run of digits. -/
def NatTTL (r : Record) : Prop :=
  r.ttl = none ∨ ∃ k : ℕ, r.ttl = some (JSNum.num (k : ℚ))

/-- The arithmetic mean of only the non-null TTL values of the records with
`timestamp >= since`, as the specification words it (in exact arithmetic). -/
def meanPresentTTL (history : List Record) (since : Int) : ℚ :=
  let present :=
    (history.filter (fun r => decide (r.timestamp ≥ since))).filter (fun r => r.ttl.isSome)
  (present.map ttlValue).sum / (present.length : ℚ)

/-- The exact quotient the specification words: the sum of the TTL values of the
records with `timestamp >= since`, a null counted as 0, divided by the number of
those records. -/
def ttlQuotient (history : List Record) (since : Int) : ℚ :=
  ((history.filter (fun r => decide (r.timestamp ≥ since))).map ttlValue).sum
    / ((history.filter (fun r => decide (r.timestamp ≥ since))).length : ℚ)

/-- Whether `marker` occurs in `s` immediately followed by a character of the class. -/
def HasMatch (marker : List Char) (cls : Char → Bool) (s : List Char) : Prop :=
  ∃ pre d post, s = pre ++ marker ++ d :: post ∧ cls d = true

/-! ## Rounding to the nearest double -/

theorem roundHalfEven_intCast (n : ℤ) : roundHalfEven (n : ℚ) = n := by
  simp [roundHalfEven]

theorem roundHalfEven_bounds (y : ℚ) :
    (roundHalfEven y : ℚ) - y ≤ 1 / 2 ∧ y - (roundHalfEven y : ℚ) ≤ 1 / 2 := by
  have h1 := Int.floor_le y
  have h2 := Int.lt_floor_add_one y
  unfold roundHalfEven
  split_ifs <;> push_cast <;> constructor <;> linarith

theorem roundHalfEven_mono {a b : ℚ} (h : a ≤ b) : roundHalfEven a ≤ roundHalfEven b := by
  have hf : ⌊a⌋ ≤ ⌊b⌋ := Int.floor_le_floor h
  have ha1 := Int.floor_le a
  have ha2 := Int.lt_floor_add_one a
  have hb1 := Int.floor_le b
  have hb2 := Int.lt_floor_add_one b
  rcases lt_or_eq_of_le hf with hlt | heq
  · have hA : roundHalfEven a ≤ ⌊a⌋ + 1 := by
      unfold roundHalfEven
      split_ifs <;> omega
    have hB : ⌊b⌋ ≤ roundHalfEven b := by
      unfold roundHalfEven
      split_ifs <;> omega
    omega
  · unfold roundHalfEven
    rw [← heq]
    split_ifs <;> first | omega | (exfalso; linarith)

theorem roundHalfEven_eq_of_near {y : ℚ} {m : ℤ} (h1 : (m : ℚ) - 1 / 2 < y)
    (h2 : y < (m : ℚ) + 1 / 2) : roundHalfEven y = m := by
  have hf1 := Int.floor_le y
  have hf2 := Int.lt_floor_add_one y
  by_cases hy : (m : ℚ) ≤ y
  · have hfl : ⌊y⌋ = m := by
      rw [Int.floor_eq_iff]
      constructor <;> linarith
    unfold roundHalfEven
    rw [hfl, if_pos (by linarith)]
  · have hfl : ⌊y⌋ = m - 1 := by
      rw [Int.floor_eq_iff]
      push_cast
      constructor <;> linarith
    unfold roundHalfEven
    rw [hfl, if_neg (by push_cast; linarith), if_pos (by push_cast; linarith)]
    ring

theorem two_zpow_eq_intCast {k : ℤ} (hk : 0 ≤ k) :
    (2 : ℚ) ^ k = (((2 : ℤ) ^ k.toNat : ℤ) : ℚ) := by
  obtain ⟨n, rfl⟩ := Int.eq_ofNat_of_zero_le hk
  simp

theorem ulp_pos (a : ℚ) : 0 < ulp a := by
  unfold ulp
  positivity

theorem binade_ge (a : ℚ) : -1022 ≤ binade a := le_max_right _ _

theorem lt_two_zpow_binade (a : ℚ) : a < (2 : ℚ) ^ (binade a + 1) := by
  have h := Int.lt_zpow_succ_log_self (R := ℚ) (b := 2) (by norm_num) a
  have h2 : ((2 : ℕ) : ℚ) ^ (Int.log 2 a + 1) ≤ (2 : ℚ) ^ (binade a + 1) := by
    push_cast
    apply zpow_le_zpow_right₀ (by norm_num)
    have : Int.log 2 a ≤ binade a := le_max_left _ _
    omega
  exact lt_of_lt_of_le h h2

theorem two_zpow_binade_le {a : ℚ} (ha : 0 < a) (h : -1022 < binade a) :
    (2 : ℚ) ^ binade a ≤ a := by
  have hb : binade a = Int.log 2 a := by
    unfold binade at h ⊢
    rcases max_cases (Int.log 2 a) (-1022) with ⟨h1, _⟩ | ⟨h1, _⟩
    · exact h1
    · rw [h1] at h
      exact absurd h (lt_irrefl _)
  rw [hb]
  have := Int.zpow_log_le_self (R := ℚ) (b := 2) (by norm_num) ha
  exact_mod_cast this

theorem binade_le_of_lt {a : ℚ} {E : ℤ} (ha : 0 < a) (h : a < (2 : ℚ) ^ (E + 1))
    (hE : -1022 ≤ E) : binade a ≤ E := by
  have h2 : a < ((2 : ℕ) : ℚ) ^ (E + 1) := by exact_mod_cast h
  have := (Int.lt_zpow_iff_log_lt (R := ℚ) (b := 2) (by norm_num) ha).mp h2
  unfold binade
  exact max_le (by omega) hE

theorem le_binade_of_le {a : ℚ} {E : ℤ} (ha : 0 < a) (h : (2 : ℚ) ^ E ≤ a) :
    E ≤ binade a := by
  have h2 : ((2 : ℕ) : ℚ) ^ E ≤ a := by exact_mod_cast h
  have := (Int.zpow_le_iff_le_log (R := ℚ) (b := 2) (by norm_num) ha).mp h2
  exact le_trans this (le_max_left _ _)

theorem binade_eq {a : ℚ} {e : ℤ} (h1 : (2 : ℚ) ^ e ≤ a) (h2 : a < (2 : ℚ) ^ (e + 1))
    (he : -1022 ≤ e) : binade a = e := by
  have ha : 0 < a := lt_of_lt_of_le (by positivity) h1
  exact le_antisymm (binade_le_of_lt ha h2 he) (le_binade_of_le ha h1)

theorem binade_mono {a b : ℚ} (ha : 0 < a) (h : a ≤ b) : binade a ≤ binade b :=
  max_le_max (Int.log_mono_right ha h) (le_refl _)

theorem roundMag_zero : roundMag 0 = 0 := by
  simp [roundMag, roundHalfEven]

theorem roundMag_nonneg {a : ℚ} (ha : 0 ≤ a) : 0 ≤ roundMag a := by
  unfold roundMag
  have hu := ulp_pos a
  have : (0 : ℤ) ≤ roundHalfEven (a / ulp a) := by
    have h := roundHalfEven_mono (a := 0) (b := a / ulp a) (by positivity)
    have h0 : roundHalfEven (0 : ℚ) = 0 := by simpa using roundHalfEven_intCast 0
    omega
  have h2 : (0 : ℚ) ≤ (roundHalfEven (a / ulp a) : ℚ) := by exact_mod_cast this
  positivity

theorem roundMag_eval {a : ℚ} {e m : ℤ} (h1 : (2 : ℚ) ^ e ≤ a) (h2 : a < (2 : ℚ) ^ (e + 1))
    (he : -1022 ≤ e) (hlo : (m : ℚ) - 1 / 2 < a / (2 : ℚ) ^ (e - 52))
    (hhi : a / (2 : ℚ) ^ (e - 52) < (m : ℚ) + 1 / 2) :
    roundMag a = (m : ℚ) * (2 : ℚ) ^ (e - 52) := by
  unfold roundMag ulp
  rw [binade_eq h1 h2 he, roundHalfEven_eq_of_near hlo hhi]

theorem roundMag_exact {a : ℚ} (m : ℕ) (k : ℤ) (ha : a = (m : ℚ) * (2 : ℚ) ^ k)
    (hm : m < 2 ^ 53) (hk : -1074 ≤ k) : roundMag a = a := by
  have two_ne : (2 : ℚ) ≠ 0 := by norm_num
  rcases Nat.eq_zero_or_pos m with h0 | hpos
  · subst h0
    simp at ha
    rw [ha, roundMag_zero]
  · have hapos : 0 < a := by
      rw [ha]
      have : (0 : ℚ) < (m : ℚ) := by exact_mod_cast hpos
      positivity
    have hlt : a < (2 : ℚ) ^ ((52 + k) + 1) := by
      rw [ha, show (52 + k) + 1 = 53 + k by ring, zpow_add₀ two_ne]
      have : (m : ℚ) < (2 : ℚ) ^ (53 : ℤ) := by
        have h : (m : ℚ) < ((2 ^ 53 : ℕ) : ℚ) := by exact_mod_cast hm
        rw [show (2 : ℚ) ^ (53 : ℤ) = ((2 ^ 53 : ℕ) : ℚ) by norm_num]
        exact h
      exact mul_lt_mul_of_pos_right this (by positivity)
    have hb : binade a ≤ 52 + k := binade_le_of_lt hapos hlt (by omega)
    have hj : 0 ≤ k - (binade a - 52) := by omega
    obtain ⟨n, hn⟩ := Int.eq_ofNat_of_zero_le hj
    have hu : ulp a = (2 : ℚ) ^ (k - (n : ℤ)) := by
      unfold ulp
      congr 1
      omega
    have hpn : (0 : ℚ) < (2 : ℚ) ^ n := by positivity
    have hpk : (0 : ℚ) < (2 : ℚ) ^ k := by positivity
    have hdiv : a / ulp a = (((m * 2 ^ n : ℕ) : ℤ) : ℚ) := by
      rw [hu, ha, zpow_sub₀ two_ne, zpow_natCast]
      push_cast
      field_simp
      ring
    unfold roundMag
    rw [hdiv, roundHalfEven_intCast, hu, zpow_sub₀ two_ne, zpow_natCast, ha]
    push_cast
    field_simp
    ring

theorem roundMag_err {a : ℚ} (E : ℤ) (ha : 0 ≤ a) (h : a < (2 : ℚ) ^ (E + 1))
    (hE : -1022 ≤ E) : |roundMag a - a| ≤ (2 : ℚ) ^ (E - 53) := by
  rcases eq_or_lt_of_le ha with h0 | hpos
  · rw [← h0, roundMag_zero]
    simp
    positivity
  · have hb := binade_le_of_lt hpos h hE
    have hu := ulp_pos a
    have hr := roundHalfEven_bounds (a / ulp a)
    have hule : ulp a ≤ (2 : ℚ) ^ (E - 52) := by
      unfold ulp
      exact zpow_le_zpow_right₀ (by norm_num) (by omega)
    have e1 : (2 : ℚ) ^ (E - 53) = (2 : ℚ) ^ (E - 52) / 2 := by
      rw [show E - 53 = (E - 52) - 1 by ring, zpow_sub₀ (by norm_num : (2 : ℚ) ≠ 0)]
      simp
    have e2 : roundMag a - a = ((roundHalfEven (a / ulp a) : ℚ) - a / ulp a) * ulp a := by
      unfold roundMag
      field_simp
    rw [e1, e2, abs_mul, abs_of_pos hu]
    have : |(roundHalfEven (a / ulp a) : ℚ) - a / ulp a| ≤ 1 / 2 := by
      rw [abs_le]
      constructor <;> linarith [hr.1, hr.2]
    calc |(roundHalfEven (a / ulp a) : ℚ) - a / ulp a| * ulp a
        ≤ 1 / 2 * ulp a := mul_le_mul_of_nonneg_right this hu.le
      _ ≤ 1 / 2 * (2 : ℚ) ^ (E - 52) := by linarith
      _ = (2 : ℚ) ^ (E - 52) / 2 := by ring

theorem roundMag_mono {a b : ℚ} (ha : 0 ≤ a) (h : a ≤ b) : roundMag a ≤ roundMag b := by
  rcases eq_or_lt_of_le ha with h0 | hpos
  · rw [← h0, roundMag_zero]
    exact roundMag_nonneg (le_trans ha h)
  · have hbpos : 0 < b := lt_of_lt_of_le hpos h
    rcases eq_or_lt_of_le (binade_mono hpos h) with heq | hlt
    · have hu : ulp a = ulp b := by
        unfold ulp
        rw [heq]
      unfold roundMag
      rw [hu]
      have hub := ulp_pos b
      have : roundHalfEven (a / ulp b) ≤ roundHalfEven (b / ulp b) :=
        roundHalfEven_mono ((div_le_div_iff_of_pos_right hub).mpr h)
      have h2 : (roundHalfEven (a / ulp b) : ℚ) ≤ (roundHalfEven (b / ulp b) : ℚ) := by
        exact_mod_cast this
      exact mul_le_mul_of_nonneg_right h2 hub.le
    · have hga := binade_ge a
      have hlow : (2 : ℚ) ^ binade b ≤ b := two_zpow_binade_le hbpos (by omega)
      have hupp : a < (2 : ℚ) ^ (binade a + 1) := lt_two_zpow_binade a
      have hmid : (2 : ℚ) ^ (binade a + 1) ≤ (2 : ℚ) ^ binade b :=
        zpow_le_zpow_right₀ (by norm_num) (by omega)
      have two_ne : (2 : ℚ) ≠ 0 := by norm_num
      have hR : (2 : ℚ) ^ binade b ≤ roundMag b := by
        have hub := ulp_pos b
        have h52 : (2 : ℚ) ^ (52 : ℤ) ≤ b / ulp b := by
          rw [le_div_iff₀ hub]
          unfold ulp
          rw [← zpow_add₀ two_ne]
          simpa using hlow
        have hr := roundHalfEven_mono h52
        rw [two_zpow_eq_intCast (by norm_num : (0 : ℤ) ≤ 52), roundHalfEven_intCast] at hr
        have hr2 : (((2 : ℤ) ^ (52 : ℤ).toNat : ℤ) : ℚ) ≤ (roundHalfEven (b / ulp b) : ℚ) := by
          exact_mod_cast hr
        rw [← two_zpow_eq_intCast (by norm_num : (0 : ℤ) ≤ 52)] at hr2
        unfold roundMag
        calc (2 : ℚ) ^ binade b = (2 : ℚ) ^ (52 : ℤ) * ulp b := by
              unfold ulp
              rw [← zpow_add₀ two_ne]
              congr 1
              ring
          _ ≤ (roundHalfEven (b / ulp b) : ℚ) * ulp b := mul_le_mul_of_nonneg_right hr2 hub.le
      have hL : roundMag a ≤ (2 : ℚ) ^ binade b := by
        have hua := ulp_pos a
        have hn : 0 ≤ binade b - (binade a - 52) := by omega
        have hq : a / ulp a ≤ (2 : ℚ) ^ (binade b - (binade a - 52)) := by
          rw [div_le_iff₀ hua]
          unfold ulp
          rw [← zpow_add₀ two_ne]
          have : binade b - (binade a - 52) + (binade a - 52) = binade b := by ring
          rw [this]
          linarith
        have hr := roundHalfEven_mono hq
        rw [two_zpow_eq_intCast hn, roundHalfEven_intCast] at hr
        have hr2 : (roundHalfEven (a / ulp a) : ℚ)
            ≤ (((2 : ℤ) ^ (binade b - (binade a - 52)).toNat : ℤ) : ℚ) := by
          exact_mod_cast hr
        rw [← two_zpow_eq_intCast hn] at hr2
        unfold roundMag
        calc (roundHalfEven (a / ulp a) : ℚ) * ulp a
            ≤ (2 : ℚ) ^ (binade b - (binade a - 52)) * ulp a :=
              mul_le_mul_of_nonneg_right hr2 hua.le
          _ = (2 : ℚ) ^ binade b := by
              unfold ulp
              rw [← zpow_add₀ two_ne]
              congr 1
              ring
      exact le_trans hL hR

theorem two_zpow_1023_exact : roundMag ((2 : ℚ) ^ (1023 : ℤ)) = (2 : ℚ) ^ (1023 : ℤ) :=
  roundMag_exact 1 1023 (by simp) (by norm_num) (by norm_num)

theorem roundDouble_of_nonneg {x : ℚ} (hx : 0 ≤ x) (h : roundMag x < (2 : ℚ) ^ (1024 : ℤ)) :
    roundDouble x = JSNum.num (roundMag x) := by
  unfold roundDouble
  rw [abs_of_nonneg hx, if_neg (not_le.mpr h), if_neg (not_lt.mpr hx)]

theorem roundMag_le_of_le {x : ℚ} (m : ℕ) (k : ℤ) (hx : 0 ≤ x) (hm : m < 2 ^ 53)
    (hk : -1074 ≤ k) (h : x ≤ (m : ℚ) * (2 : ℚ) ^ k) : roundMag x ≤ (m : ℚ) * (2 : ℚ) ^ k := by
  have := roundMag_mono hx h
  rwa [roundMag_exact m k rfl hm hk] at this

theorem roundDouble_finite {x : ℚ} (hx : 0 ≤ x) (h : x ≤ (2 : ℚ) ^ (1023 : ℤ)) :
    roundDouble x = JSNum.num (roundMag x) := by
  apply roundDouble_of_nonneg hx
  have h1 := roundMag_mono hx h
  rw [two_zpow_1023_exact] at h1
  have h2 : (2 : ℚ) ^ (1023 : ℤ) < (2 : ℚ) ^ (1024 : ℤ) :=
    zpow_lt_zpow_right₀ (by norm_num) (by norm_num)
  linarith

theorem roundDouble_dyadic (m : ℕ) (k : ℤ) (hm : m < 2 ^ 53) (hk : -1074 ≤ k)
    (hlt : (m : ℚ) * (2 : ℚ) ^ k < (2 : ℚ) ^ (1024 : ℤ)) :
    roundDouble ((m : ℚ) * (2 : ℚ) ^ k) = JSNum.num ((m : ℚ) * (2 : ℚ) ^ k) := by
  have hx : (0 : ℚ) ≤ (m : ℚ) * (2 : ℚ) ^ k := by positivity
  have he := roundMag_exact m k rfl hm hk
  rw [roundDouble_of_nonneg hx (by rw [he]; exact hlt), he]

theorem roundDouble_natCast (n : ℕ) (hn : n < 2 ^ 53) :
    roundDouble (n : ℚ) = JSNum.num (n : ℚ) := by
  have h := roundDouble_dyadic n 0 hn (by norm_num) (by
    have h1 : (n : ℚ) < ((2 ^ 53 : ℕ) : ℚ) := by exact_mod_cast hn
    have h2 : ((2 ^ 53 : ℕ) : ℚ) = (2 : ℚ) ^ (53 : ℤ) := by norm_num
    have h3 : (2 : ℚ) ^ (53 : ℤ) < (2 : ℚ) ^ (1024 : ℤ) :=
      zpow_lt_zpow_right₀ (by norm_num) (by norm_num)
    simp only [zpow_zero, mul_one]
    linarith)
  simpa using h

theorem roundDouble_zero : roundDouble 0 = JSNum.num 0 := by
  simpa using roundDouble_natCast 0 (by norm_num)

theorem roundDouble_eval {x : ℚ} {e m : ℤ} (h1 : (2 : ℚ) ^ e ≤ x)
    (h2 : x < (2 : ℚ) ^ (e + 1)) (he : -1022 ≤ e) (he2 : e ≤ 1022)
    (hlo : (m : ℚ) - 1 / 2 < x / (2 : ℚ) ^ (e - 52))
    (hhi : x / (2 : ℚ) ^ (e - 52) < (m : ℚ) + 1 / 2) :
    roundDouble x = JSNum.num ((m : ℚ) * (2 : ℚ) ^ (e - 52)) := by
  have hx : 0 ≤ x := le_trans (by positivity) h1
  have hle : x ≤ (2 : ℚ) ^ (1023 : ℤ) :=
    le_trans h2.le (zpow_le_zpow_right₀ (by norm_num) (by omega))
  rw [roundDouble_finite hx hle, roundMag_eval h1 h2 he hlo hhi]

theorem roundDouble_mono {x y : ℚ} (hx : 0 ≤ x) (hxy : x ≤ y) (hy : y ≤ (2 : ℚ) ^ (1023 : ℤ)) :
    roundDouble x = JSNum.num (roundMag x) ∧ roundDouble y = JSNum.num (roundMag y) ∧
      roundMag x ≤ roundMag y :=
  ⟨roundDouble_finite hx (le_trans hxy hy), roundDouble_finite (le_trans hx hxy) hy,
    roundMag_mono hx hxy⟩

/-! ## Rounding to decimals -/

theorem toFixed_num (f : Nat) (x : ℚ) :
    toFixed f (JSNum.num x)
      = if (10 : ℚ) ^ 21 ≤ |x| then JSNum.num x
        else if x < 0 then
          roundDouble (-((⌊(-x) * (10 : ℚ) ^ f + 1 / 2⌋ : ℤ) : ℚ) / (10 : ℚ) ^ f)
        else roundDouble (((⌊x * (10 : ℚ) ^ f + 1 / 2⌋ : ℤ) : ℚ) / (10 : ℚ) ^ f) := rfl

theorem toFixed_of_nonneg (f : Nat) {x : ℚ} (hx : 0 ≤ x) (h : x < (10 : ℚ) ^ 21) :
    toFixed f (JSNum.num x)
      = roundDouble (((⌊x * (10 : ℚ) ^ f + 1 / 2⌋ : ℤ) : ℚ) / (10 : ℚ) ^ f) := by
  rw [toFixed_num, abs_of_nonneg hx, if_neg (not_le.mpr h), if_neg (not_lt.mpr hx)]

theorem toFixed_decimal (f : Nat) {x : ℚ} (h : |x| < (10 : ℚ) ^ 21) :
    ∃ n : ℤ, |(n : ℚ) / (10 : ℚ) ^ f - x| ≤ 1 / (2 * (10 : ℚ) ^ f) ∧
      toFixed f (JSNum.num x) = roundDouble ((n : ℚ) / (10 : ℚ) ^ f) := by
  have hp : (0 : ℚ) < (10 : ℚ) ^ f := by positivity
  have key : ∀ y : ℚ, |((⌊y * (10 : ℚ) ^ f + 1 / 2⌋ : ℤ) : ℚ) / (10 : ℚ) ^ f - y|
      ≤ 1 / (2 * (10 : ℚ) ^ f) := by
    intro y
    have h1 := Int.floor_le (y * (10 : ℚ) ^ f + 1 / 2)
    have h2 := Int.lt_floor_add_one (y * (10 : ℚ) ^ f + 1 / 2)
    have e1 : (y * (10 : ℚ) ^ f - 1 / 2) / (10 : ℚ) ^ f = y - 1 / (2 * (10 : ℚ) ^ f) := by
      field_simp
      ring
    have e2 : (y * (10 : ℚ) ^ f + 1 / 2) / (10 : ℚ) ^ f = y + 1 / (2 * (10 : ℚ) ^ f) := by
      field_simp
      ring
    have h3 : (y * (10 : ℚ) ^ f - 1 / 2) / (10 : ℚ) ^ f
        ≤ ((⌊y * (10 : ℚ) ^ f + 1 / 2⌋ : ℤ) : ℚ) / (10 : ℚ) ^ f :=
      (div_le_div_iff_of_pos_right hp).mpr (by linarith)
    have h4 : ((⌊y * (10 : ℚ) ^ f + 1 / 2⌋ : ℤ) : ℚ) / (10 : ℚ) ^ f
        ≤ (y * (10 : ℚ) ^ f + 1 / 2) / (10 : ℚ) ^ f :=
      (div_le_div_iff_of_pos_right hp).mpr h1
    rw [abs_le]
    constructor <;> linarith
  rw [toFixed_num, if_neg (not_le.mpr h)]
  split
  · refine ⟨-⌊(-x) * (10 : ℚ) ^ f + 1 / 2⌋, ?_, by push_cast; rfl⟩
    have := key (-x)
    rw [← abs_neg]
    have e : -(((-⌊(-x) * (10 : ℚ) ^ f + 1 / 2⌋ : ℤ) : ℚ) / (10 : ℚ) ^ f - x)
        = ((⌊(-x) * (10 : ℚ) ^ f + 1 / 2⌋ : ℤ) : ℚ) / (10 : ℚ) ^ f - (-x) := by
      push_cast
      ring
    rw [e]
    exact this
  · exact ⟨⌊x * (10 : ℚ) ^ f + 1 / 2⌋, key x, rfl⟩

theorem floor_scaled_mono (f : Nat) {x y : ℚ} (hxy : x ≤ y) :
    ((⌊x * (10 : ℚ) ^ f + 1 / 2⌋ : ℤ) : ℚ) / (10 : ℚ) ^ f
      ≤ ((⌊y * (10 : ℚ) ^ f + 1 / 2⌋ : ℤ) : ℚ) / (10 : ℚ) ^ f := by
  have hp : (0 : ℚ) < (10 : ℚ) ^ f := by positivity
  apply (div_le_div_iff_of_pos_right hp).mpr
  have : ⌊x * (10 : ℚ) ^ f + 1 / 2⌋ ≤ ⌊y * (10 : ℚ) ^ f + 1 / 2⌋ := by
    apply Int.floor_le_floor
    have := mul_le_mul_of_nonneg_right hxy hp.le
    linarith
  exact_mod_cast this

theorem floor_scaled_nonneg (f : Nat) {x : ℚ} (hx : 0 ≤ x) :
    0 ≤ ((⌊x * (10 : ℚ) ^ f + 1 / 2⌋ : ℤ) : ℚ) / (10 : ℚ) ^ f := by
  have hp : (0 : ℚ) < (10 : ℚ) ^ f := by positivity
  have : (0 : ℤ) ≤ ⌊x * (10 : ℚ) ^ f + 1 / 2⌋ := by
    apply Int.floor_nonneg.mpr
    positivity
  have h2 : (0 : ℚ) ≤ ((⌊x * (10 : ℚ) ^ f + 1 / 2⌋ : ℤ) : ℚ) := by exact_mod_cast this
  positivity

theorem floor_scaled_le (f : Nat) (x : ℚ) :
    ((⌊x * (10 : ℚ) ^ f + 1 / 2⌋ : ℤ) : ℚ) / (10 : ℚ) ^ f ≤ x + 1 / 2 := by
  have hp : (0 : ℚ) < (10 : ℚ) ^ f := by positivity
  have h1 := Int.floor_le (x * (10 : ℚ) ^ f + 1 / 2)
  rw [div_le_iff₀ hp]
  have h10 : (1 : ℚ) ≤ (10 : ℚ) ^ f := one_le_pow₀ (by norm_num)
  nlinarith

theorem toFixed_mono (f : Nat) {x y : ℚ} (hx : 0 ≤ x) (hxy : x ≤ y) (hy : y < (10 : ℚ) ^ 21) :
    ∃ a b : ℚ, toFixed f (JSNum.num x) = JSNum.num a ∧ toFixed f (JSNum.num y) = JSNum.num b ∧
      0 ≤ a ∧ a ≤ b := by
  have hbig : (10 : ℚ) ^ 21 + 1 / 2 ≤ (2 : ℚ) ^ (1023 : ℤ) := by
    have h1 : (10 : ℚ) ^ 21 + 1 / 2 ≤ (2 : ℚ) ^ (71 : ℤ) := by norm_num
    have h2 : (2 : ℚ) ^ (71 : ℤ) ≤ (2 : ℚ) ^ (1023 : ℤ) :=
      zpow_le_zpow_right₀ (by norm_num) (by norm_num)
    linarith
  have hm := roundDouble_mono (floor_scaled_nonneg f hx) (floor_scaled_mono f hxy)
    (le_trans (floor_scaled_le f y) (by linarith))
  refine ⟨_, _, ?_, ?_, roundMag_nonneg (floor_scaled_nonneg f hx), hm.2.2⟩
  · rw [toFixed_of_nonneg f hx (lt_of_le_of_lt hxy hy)]
    exact hm.1
  · rw [toFixed_of_nonneg f (le_trans hx hxy) hy]
    exact hm.2.1

/-! ## The operators on finite numbers -/

theorem add_num (a b : ℚ) : JSNum.add (JSNum.num a) (JSNum.num b) = roundDouble (a + b) := rfl

theorem mul_num (a b : ℚ) : JSNum.mul (JSNum.num a) (JSNum.num b) = roundDouble (a * b) := rfl

theorem div_num (a : ℚ) {b : ℚ} (hb : b ≠ 0) :
    JSNum.div (JSNum.num a) (JSNum.num b) = roundDouble (a / b) := by
  simp [JSNum.div, hb]

theorem orZero_of_natTTL {r : Record} (h : NatTTL r) :
    ∃ k : ℕ, ttlValue r = (k : ℚ) ∧ orZero r.ttl = JSNum.num (k : ℚ) := by
  rcases h with h | ⟨k, h⟩
  · exact ⟨0, by simp [ttlValue, h], by simp [orZero, h]⟩
  · exact ⟨k, by simp [ttlValue, h], by simp [orZero, h]⟩

theorem ttlValue_nonneg {r : Record} (h : NatTTL r) : 0 ≤ ttlValue r := by
  obtain ⟨k, hk, _⟩ := orZero_of_natTTL h
  rw [hk]
  positivity

theorem sum_ttlValue_nat (l : List Record) (h : ∀ r ∈ l, NatTTL r) :
    ∃ n : ℕ, (l.map ttlValue).sum = (n : ℚ) := by
  induction l with
  | nil => exact ⟨0, by simp⟩
  | cons x xs ih =>
    obtain ⟨n, hn⟩ := ih (fun r hr => h r (List.mem_cons_of_mem _ hr))
    obtain ⟨k, hk, _⟩ := orZero_of_natTTL (h x (List.mem_cons_self _ _))
    exact ⟨k + n, by simp [hn, hk]⟩

theorem foldl_ttl_exact (l : List Record) (h : ∀ r ∈ l, NatTTL r) (a : ℕ)
    (hs : (a : ℚ) + (l.map ttlValue).sum < 2 ^ 53) :
    l.foldl (fun sum h => JSNum.add sum (orZero h.ttl)) (JSNum.num (a : ℚ))
      = JSNum.num ((a : ℚ) + (l.map ttlValue).sum) := by
  induction l generalizing a with
  | nil => simp
  | cons x xs ih =>
    obtain ⟨k, hk, hz⟩ := orZero_of_natTTL (h x (List.mem_cons_self _ _))
    obtain ⟨n, hn⟩ := sum_ttlValue_nat xs (fun r hr => h r (List.mem_cons_of_mem _ hr))
    simp only [List.map_cons, List.sum_cons, hk, hn] at hs
    have hak : a + k < 2 ^ 53 := by
      have : ((a + k + n : ℕ) : ℚ) < ((2 ^ 53 : ℕ) : ℚ) := by
        push_cast
        linarith
      have := Nat.cast_lt.mp this
      omega
    have hstep : JSNum.add (JSNum.num (a : ℚ)) (orZero x.ttl) = JSNum.num ((a + k : ℕ) : ℚ) := by
      rw [hz, add_num, ← Nat.cast_add]
      exact roundDouble_natCast (a + k) hak
    simp only [List.foldl_cons, hstep]
    rw [ih (fun r hr => h r (List.mem_cons_of_mem _ hr)) (a + k) (by
      rw [hn]
      push_cast
      linarith)]
    simp only [List.map_cons, List.sum_cons, hk]
    push_cast
    rw [add_assoc]

theorem ttlSumOf_exact (l : List Record) (h : ∀ r ∈ l, NatTTL r)
    (hs : (l.map ttlValue).sum < 2 ^ 53) :
    ttlSumOf l = JSNum.num ((l.map ttlValue).sum) := by
  have := foldl_ttl_exact l h 0 (by simpa using hs)
  simpa [ttlSumOf] using this

theorem filter_length_ne_zero (history : List Record) (since : Int)
    (h : ∃ r ∈ history, r.timestamp ≥ since) :
    ((history.filter (fun r => decide (r.timestamp ≥ since))).length : Int) ≠ 0 := by
  obtain ⟨r, hr, hts⟩ := h
  have hmem : r ∈ history.filter (fun r => decide (r.timestamp ≥ since)) :=
    List.mem_filter.mpr ⟨hr, decide_eq_true hts⟩
  have := List.length_pos_of_mem hmem
  omega

theorem length_filter_split (l : List Record) :
    ((l.filter (fun r => r.success)).length : Int) + (l.filter (fun r => !r.success)).length
      = l.length := by
  induction l with
  | nil => simp
  | cons x xs ih =>
    cases hx : x.success <;> simp [List.filter_cons, hx] <;> omega

/-! ## Pruning -/

/-- C1: after `pruneHistory` at time `now` the history is exactly the original one
filtered by `timestamp >= now - 31 days` (2678400000 ms): no older record is left,
every record that is not older is still there, and the order is the original one. -/
theorem pruneHistory_keeps_exactly_recent (now : Int) (s : Stats) :
    (pruneHistory now s).history
        = s.history.filter (fun r => decide (r.timestamp ≥ now - 2678400000)) ∧
      (∀ r ∈ (pruneHistory now s).history, ¬ r.timestamp < now - 2678400000) ∧
      (∀ r ∈ s.history, r.timestamp ≥ now - 2678400000 → r ∈ (pruneHistory now s).history) ∧
      List.Sublist (pruneHistory now s).history s.history := by
  have h : (pruneHistory now s).history
      = s.history.filter (fun r => decide (r.timestamp ≥ now - 2678400000)) := by
    simp [pruneHistory]
  refine ⟨h, ?_, ?_, ?_⟩
  · intro r hr
    rw [h, List.mem_filter] at hr
    have := of_decide_eq_true hr.2
    omega
  · intro r hr ht
    rw [h, List.mem_filter]
    exact ⟨hr, decide_eq_true ht⟩
  · rw [h]
    exact List.filter_sublist _

/-! ## Aggregation -/

theorem packetLoss_value {f c : Int} (hc : 0 < c) (hf0 : 0 ≤ f) (hfc : f ≤ c) :
    ∃ p : ℚ, JSNum.mul (JSNum.div (JSNum.num (f : ℚ)) (JSNum.num (c : ℚ))) (JSNum.num 100)
        = JSNum.num p ∧ 0 ≤ p ∧ p ≤ 100 ∧ |p - (f : ℚ) / (c : ℚ) * 100| ≤ 1 / 10 ^ 13 := by
  have hcq : (0 : ℚ) < (c : ℚ) := by exact_mod_cast hc
  have hfq : (0 : ℚ) ≤ (f : ℚ) := by exact_mod_cast hf0
  have hfcq : (f : ℚ) ≤ (c : ℚ) := by exact_mod_cast hfc
  have hr0 : (0 : ℚ) ≤ (f : ℚ) / (c : ℚ) := by positivity
  have hr1 : (f : ℚ) / (c : ℚ) ≤ 1 := (div_le_one hcq).mpr hfcq
  have hbig : (1 : ℚ) ≤ (2 : ℚ) ^ (1023 : ℤ) := one_le_zpow₀ (by norm_num) (by norm_num)
  -- the quotient
  have hq : roundDouble ((f : ℚ) / (c : ℚ)) = JSNum.num (roundMag ((f : ℚ) / (c : ℚ))) :=
    roundDouble_finite hr0 (le_trans hr1 hbig)
  have hq0 : 0 ≤ roundMag ((f : ℚ) / (c : ℚ)) := roundMag_nonneg hr0
  have hq1 : roundMag ((f : ℚ) / (c : ℚ)) ≤ 1 := by
    have := roundMag_le_of_le 1 0 hr0 (by norm_num) (by norm_num) (by simpa using hr1)
    simpa using this
  have hqe : |roundMag ((f : ℚ) / (c : ℚ)) - (f : ℚ) / (c : ℚ)| ≤ (2 : ℚ) ^ ((0 : ℤ) - 53) :=
    roundMag_err 0 hr0 (by norm_num; linarith) (by norm_num)
  -- the product
  have hp0 : (0 : ℚ) ≤ roundMag ((f : ℚ) / (c : ℚ)) * 100 := by positivity
  have hp1 : roundMag ((f : ℚ) / (c : ℚ)) * 100 ≤ 100 := by linarith
  have h100 : (100 : ℚ) ≤ (2 : ℚ) ^ (1023 : ℤ) := by
    have h1 : (100 : ℚ) ≤ (2 : ℚ) ^ (7 : ℤ) := by norm_num
    have h2 : (2 : ℚ) ^ (7 : ℤ) ≤ (2 : ℚ) ^ (1023 : ℤ) :=
      zpow_le_zpow_right₀ (by norm_num) (by norm_num)
    linarith
  have hp : roundDouble (roundMag ((f : ℚ) / (c : ℚ)) * 100)
      = JSNum.num (roundMag (roundMag ((f : ℚ) / (c : ℚ)) * 100)) :=
    roundDouble_finite hp0 (le_trans hp1 h100)
  have hpu : roundMag (roundMag ((f : ℚ) / (c : ℚ)) * 100) ≤ 100 := by
    have := roundMag_le_of_le 100 0 hp0 (by norm_num) (by norm_num) (by simpa using hp1)
    simpa using this
  have hpe : |roundMag (roundMag ((f : ℚ) / (c : ℚ)) * 100)
      - roundMag ((f : ℚ) / (c : ℚ)) * 100| ≤ (2 : ℚ) ^ ((6 : ℤ) - 53) :=
    roundMag_err 6 hp0 (by norm_num; linarith) (by norm_num)
  refine ⟨roundMag (roundMag ((f : ℚ) / (c : ℚ)) * 100), ?_, roundMag_nonneg hp0, hpu, ?_⟩
  · rw [div_num _ hcq.ne', hq, mul_num, hp]
  · have e1 : (2 : ℚ) ^ ((0 : ℤ) - 53) = 1 / 2 ^ 53 := by norm_num
    have e2 : (2 : ℚ) ^ ((6 : ℤ) - 53) = 1 / 2 ^ 47 := by norm_num
    rw [e1] at hqe
    rw [e2] at hpe
    rw [abs_le] at hqe hpe ⊢
    have e3 : (1 : ℚ) / 2 ^ 47 + 100 * (1 / 2 ^ 53) ≤ 1 / 10 ^ 13 := by norm_num
    constructor <;> linarith [hqe.1, hqe.2, hpe.1, hpe.2]

/-- C2: the counters of `calc(since)`: `count` is the number of records with
`timestamp >= since`, `success` the number of those with the success flag set,
`fail = count - success` (so `success + fail = count`, with `fail` the number of
matching records without the flag), and `packetLoss` is 0 when `count` is 0 and
otherwise the double product `(fail / count) * 100`: a finite number between 0 and
100 within `10^-13` of the exact value of `fail / count * 100`. -/
theorem calcWindow_counters (history : List Record) (since : Int) :
    (calcWindow history since).count
        = ((history.filter (fun r => decide (r.timestamp ≥ since))).length : Int) ∧
      (calcWindow history since).success
        = ((history.filter (fun r => decide (r.timestamp ≥ since) && r.success)).length : Int) ∧
      (calcWindow history since).fail
        = (calcWindow history since).count - (calcWindow history since).success ∧
      (calcWindow history since).success + (calcWindow history since).fail
        = (calcWindow history since).count ∧
      (calcWindow history since).fail
        = ((history.filter (fun r => decide (r.timestamp ≥ since) && !r.success)).length : Int) ∧
      (calcWindow history since).packetLoss
        = Field.val (if (calcWindow history since).count = 0 then JSNum.num 0
            else JSNum.mul
              (JSNum.div (JSNum.num ((calcWindow history since).fail : ℚ))
                (JSNum.num ((calcWindow history since).count : ℚ)))
              (JSNum.num 100)) ∧
      ∃ p : ℚ, (calcWindow history since).packetLoss = Field.val (JSNum.num p) ∧
        0 ≤ p ∧ p ≤ 100 ∧
        |p - (if (calcWindow history since).count = 0 then 0
              else ((calcWindow history since).fail : ℚ)
                / ((calcWindow history since).count : ℚ) * 100)| ≤ 1 / 10 ^ 13 := by
  have h := length_filter_split (history.filter (fun r => decide (r.timestamp ≥ since)))
  simp only [List.filter_filter] at h
  have hfail : (calcWindow history since).fail
      = ((history.filter (fun r => decide (r.timestamp ≥ since) && !r.success)).length
          : Int) := by
    simp only [calcWindow, List.filter_filter]
    simp only [Bool.and_comm] at h ⊢
    omega
  have hloss : (calcWindow history since).packetLoss
      = Field.val (if (calcWindow history since).count = 0 then JSNum.num 0
          else JSNum.mul
            (JSNum.div (JSNum.num ((calcWindow history since).fail : ℚ))
              (JSNum.num ((calcWindow history since).count : ℚ)))
            (JSNum.num 100)) := by
    simp only [calcWindow]
    split <;> simp_all
  refine ⟨rfl, ?_, rfl, ?_, hfail, hloss, ?_⟩
  · simp [calcWindow, List.filter_filter, Bool.and_comm]
  · simp [calcWindow]
  · by_cases hc : (calcWindow history since).count = 0
    · refine ⟨0, ?_, le_refl _, by norm_num, ?_⟩
      · rw [hloss, if_pos hc]
      · rw [if_pos hc]
        norm_num
    · have hcount : (calcWindow history since).count
          = ((history.filter (fun r => decide (r.timestamp ≥ since))).length : Int) := rfl
      have hcpos : 0 < (calcWindow history since).count := by
        rw [hcount] at hc ⊢
        omega
      have hf0 : 0 ≤ (calcWindow history since).fail := by
        rw [hfail]
        omega
      have hfc : (calcWindow history since).fail ≤ (calcWindow history since).count := by
        rw [hfail, hcount]
        exact_mod_cast List.Sublist.length_le
          (List.monotone_filter_right history (fun r hr => by
            simp only [Bool.and_eq_true] at hr
            exact hr.1))
      obtain ⟨p, hp, hp0, hp1, hpe⟩ := packetLoss_value hcpos hf0 hfc
      refine ⟨p, ?_, hp0, hp1, ?_⟩
      · rw [hloss, if_neg hc, hp]
      · rw [if_neg hc]
        exact hpe

theorem toFixed_natCast (f : Nat) (n : ℕ) (hn : n < 2 ^ 53) :
    toFixed f (JSNum.num (n : ℚ)) = JSNum.num (n : ℚ) := by
  have hp : (0 : ℚ) < (10 : ℚ) ^ f := by positivity
  have h21 : (n : ℚ) < (10 : ℚ) ^ 21 := by
    have h1 : (n : ℚ) < ((2 ^ 53 : ℕ) : ℚ) := by exact_mod_cast hn
    have h2 : ((2 ^ 53 : ℕ) : ℚ) ≤ (10 : ℚ) ^ 21 := by norm_num
    linarith
  rw [toFixed_of_nonneg f (by positivity) h21]
  have hfl : ⌊(n : ℚ) * (10 : ℚ) ^ f + 1 / 2⌋ = (n : ℤ) * (10 : ℤ) ^ f := by
    rw [Int.floor_eq_iff]
    push_cast
    constructor <;> linarith
  rw [hfl]
  push_cast
  rw [mul_div_cancel_right₀ _ hp.ne']
  exact roundDouble_natCast n hn

theorem calcWindow_avg_eq (history : List Record) (since : Int)
    (hlen : ((history.filter (fun r => decide (r.timestamp ≥ since))).length : Int) ≠ 0) :
    (calcWindow history since).avgTTL
        = Field.val (toFixed 3
            (JSNum.div (ttlSumOf (history.filter (fun r => decide (r.timestamp ≥ since))))
              (JSNum.num
                ((history.filter (fun r => decide (r.timestamp ≥ since))).length : ℚ)))) ∧
      (calcWindow history since).avgTime
        = Field.val (toFixed 3
            (JSNum.div (timeSumOf (history.filter (fun r => decide (r.timestamp ≥ since))))
              (JSNum.num
                ((history.filter (fun r => decide (r.timestamp ≥ since))).length : ℚ)))) := by
  constructor
  · simp only [calcWindow, if_pos hlen]
    simp
  · simp only [calcWindow, if_pos hlen]
    simp

theorem sum_ttlValue_nonneg (l : List Record) (h : ∀ r ∈ l, NatTTL r) :
    0 ≤ (l.map ttlValue).sum := by
  obtain ⟨n, hn⟩ := sum_ttlValue_nat l h
  rw [hn]
  positivity

theorem ttl_quotient_double (l : List Record) (h : ∀ r ∈ l, NatTTL r)
    (hs : (l.map ttlValue).sum < 2 ^ 53) (hl : l ≠ []) :
    JSNum.div (ttlSumOf l) (JSNum.num (l.length : ℚ))
        = JSNum.num (roundMag ((l.map ttlValue).sum / (l.length : ℚ))) ∧
      roundDouble ((l.map ttlValue).sum / (l.length : ℚ))
        = JSNum.num (roundMag ((l.map ttlValue).sum / (l.length : ℚ))) ∧
      0 ≤ roundMag ((l.map ttlValue).sum / (l.length : ℚ)) ∧
      roundMag ((l.map ttlValue).sum / (l.length : ℚ)) ≤ 2 ^ 53 := by
  have hlen : (1 : ℚ) ≤ (l.length : ℚ) := by
    have := List.length_pos.mpr hl
    exact_mod_cast this
  have hS := sum_ttlValue_nonneg l h
  have hq0 : 0 ≤ (l.map ttlValue).sum / (l.length : ℚ) := by positivity
  have hq1 : (l.map ttlValue).sum / (l.length : ℚ) ≤ (l.map ttlValue).sum :=
    div_le_self hS hlen
  have h53 : ((1 : ℕ) : ℚ) * (2 : ℚ) ^ (53 : ℤ) = 2 ^ 53 := by norm_num
  have hle : (l.map ttlValue).sum / (l.length : ℚ) ≤ ((1 : ℕ) : ℚ) * (2 : ℚ) ^ (53 : ℤ) := by
    rw [h53]
    linarith
  have hbig : (l.map ttlValue).sum / (l.length : ℚ) ≤ (2 : ℚ) ^ (1023 : ℤ) := by
    have : (2 : ℚ) ^ (53 : ℤ) ≤ (2 : ℚ) ^ (1023 : ℤ) :=
      zpow_le_zpow_right₀ (by norm_num) (by norm_num)
    rw [h53] at hle
    have e : (2 : ℚ) ^ (53 : ℤ) = 2 ^ 53 := by norm_num
    linarith
  have hfin := roundDouble_finite hq0 hbig
  have hup := roundMag_le_of_le 1 53 hq0 (by norm_num) (by norm_num) hle
  rw [h53] at hup
  refine ⟨?_, hfin, roundMag_nonneg hq0, hup⟩
  rw [ttlSumOf_exact l h hs, div_num _ (by positivity), hfin]

/-- C3: with at least one record at or after `since`, `avgTTL` is `toFixed(3)` of
the double quotient of `ttlSum` (the sum of the `ttl` of the matching records, a
`null` counted as 0) by their number, and `avgTime` the same from `time`.  For a
finite quotient below `10^21` the result is the double nearest to a multiple of
1/1000 that is at most 1/2000 away from the quotient.  When the TTL values are
natural numbers with a sum below `2^53`, `ttlSum` is their exact sum and the
quotient is the double nearest to the exact quotient. -/
theorem calcWindow_averages (history : List Record) (since : Int)
    (h : ∃ r ∈ history, r.timestamp ≥ since) :
    (calcWindow history since).avgTTL
        = Field.val (toFixed 3
            (JSNum.div (ttlSumOf (history.filter (fun r => decide (r.timestamp ≥ since))))
              (JSNum.num
                ((history.filter (fun r => decide (r.timestamp ≥ since))).length : ℚ)))) ∧
      (calcWindow history since).avgTime
        = Field.val (toFixed 3
            (JSNum.div (timeSumOf (history.filter (fun r => decide (r.timestamp ≥ since))))
              (JSNum.num
                ((history.filter (fun r => decide (r.timestamp ≥ since))).length : ℚ)))) ∧
      (∀ q : ℚ,
        JSNum.div (ttlSumOf (history.filter (fun r => decide (r.timestamp ≥ since))))
            (JSNum.num ((history.filter (fun r => decide (r.timestamp ≥ since))).length : ℚ))
          = JSNum.num q →
        |q| < 10 ^ 21 →
        ∃ n : ℤ, |(n : ℚ) / 1000 - q| ≤ 1 / 2000 ∧
          (calcWindow history since).avgTTL = Field.val (roundDouble ((n : ℚ) / 1000))) ∧
      (∀ q : ℚ,
        JSNum.div (timeSumOf (history.filter (fun r => decide (r.timestamp ≥ since))))
            (JSNum.num ((history.filter (fun r => decide (r.timestamp ≥ since))).length : ℚ))
          = JSNum.num q →
        |q| < 10 ^ 21 →
        ∃ n : ℤ, |(n : ℚ) / 1000 - q| ≤ 1 / 2000 ∧
          (calcWindow history since).avgTime = Field.val (roundDouble ((n : ℚ) / 1000))) ∧
      ((∀ r ∈ history.filter (fun r => decide (r.timestamp ≥ since)), NatTTL r) →
        ((history.filter (fun r => decide (r.timestamp ≥ since))).map ttlValue).sum < 2 ^ 53 →
        ttlSumOf (history.filter (fun r => decide (r.timestamp ≥ since)))
            = JSNum.num
                ((history.filter (fun r => decide (r.timestamp ≥ since))).map ttlValue).sum ∧
          ∃ (q : ℚ) (n : ℤ),
            roundDouble
                (((history.filter (fun r => decide (r.timestamp ≥ since))).map ttlValue).sum
                  / ((history.filter (fun r => decide (r.timestamp ≥ since))).length : ℚ))
              = JSNum.num q ∧
            |(n : ℚ) / 1000 - q| ≤ 1 / 2000 ∧
            (calcWindow history since).avgTTL = Field.val (roundDouble ((n : ℚ) / 1000))) := by
  have hlen := filter_length_ne_zero history since h
  have hA := (calcWindow_avg_eq history since hlen).1
  have hB := (calcWindow_avg_eq history since hlen).2
  have e10 : ((10 : ℚ) ^ 3) = 1000 := by norm_num
  have e20 : (1 : ℚ) / (2 * 1000) = 1 / 2000 := by norm_num
  refine ⟨hA, hB, ?_, ?_, ?_⟩
  · intro q hq h21
    obtain ⟨n, hn, ht⟩ := toFixed_decimal 3 h21
    rw [e10, e20] at hn
    rw [e10] at ht
    exact ⟨n, hn, by rw [hA, hq, ht]⟩
  · intro q hq h21
    obtain ⟨n, hn, ht⟩ := toFixed_decimal 3 h21
    rw [e10, e20] at hn
    rw [e10] at ht
    exact ⟨n, hn, by rw [hB, hq, ht]⟩
  · intro hnat hsum
    have hne : history.filter (fun r => decide (r.timestamp ≥ since)) ≠ [] := by
      intro he
      rw [he] at hlen
      exact hlen rfl
    obtain ⟨hd, hfin, hq0, hq1⟩ := ttl_quotient_double _ hnat hsum hne
    have h21 : |roundMag
        (((history.filter (fun r => decide (r.timestamp ≥ since))).map ttlValue).sum
          / ((history.filter (fun r => decide (r.timestamp ≥ since))).length : ℚ))|
        < 10 ^ 21 := by
      rw [abs_of_nonneg hq0]
      have : (2 : ℚ) ^ 53 < 10 ^ 21 := by norm_num
      linarith
    obtain ⟨n, hn, ht⟩ := toFixed_decimal 3 h21
    rw [e10, e20] at hn
    rw [e10] at ht
    exact ⟨ttlSumOf_exact _ hnat hsum, _, n, hfin, hn, by rw [hA, hd, ht]⟩

theorem scenario_value : calcWindow scenarioLog 0 =
    { count := 2, success := 1, fail := 1, ttlSum := Field.absent, timeSum := Field.absent,
      avgTTL := Field.val (JSNum.num 32), avgTime := Field.val (JSNum.num 5),
      packetLoss := Field.val (JSNum.num 50) } := by
  have r64 : roundDouble 64 = JSNum.num 64 := by
    simpa using roundDouble_natCast 64 (by norm_num)
  have r10 : roundDouble 10 = JSNum.num 10 := by
    simpa using roundDouble_natCast 10 (by norm_num)
  have r32 : roundDouble 32 = JSNum.num 32 := by
    simpa using roundDouble_natCast 32 (by norm_num)
  have r5 : roundDouble 5 = JSNum.num 5 := by
    simpa using roundDouble_natCast 5 (by norm_num)
  have r50 : roundDouble 50 = JSNum.num 50 := by
    simpa using roundDouble_natCast 50 (by norm_num)
  have rhalf : roundDouble (1 / 2) = JSNum.num (1 / 2) := by
    have := roundDouble_dyadic 1 (-1) (by norm_num) (by norm_num) (by norm_num)
    norm_num at this
    simpa using this
  have t32 : toFixed 3 (JSNum.num 32) = JSNum.num 32 := by
    simpa using toFixed_natCast 3 32 (by norm_num)
  have t5 : toFixed 3 (JSNum.num 5) = JSNum.num 5 := by
    simpa using toFixed_natCast 3 5 (by norm_num)
  have hf : scenarioLog.filter (fun h => decide (h.timestamp ≥ 0)) = scenarioLog := by
    simp [scenarioLog]
  have hs : scenarioLog.filter (fun h => h.success)
      = [ { timestamp := 0, datetime := "1970-01-01 00:00:00", success := true,
            ttl := some (JSNum.num 64), time := some (JSNum.num 10) } ] := by
    simp [scenarioLog]
  have httl : ttlSumOf scenarioLog = JSNum.num 64 := by
    simp [ttlSumOf, scenarioLog, orZero, add_num, r64]
  have htime : timeSumOf scenarioLog = JSNum.num 10 := by
    simp [timeSumOf, scenarioLog, orZero, add_num, r10]
  have hd1 : JSNum.div (JSNum.num 64) (JSNum.num 2) = JSNum.num 32 := by
    rw [div_num _ (by norm_num)]
    norm_num [r32]
  have hd2 : JSNum.div (JSNum.num 10) (JSNum.num 2) = JSNum.num 5 := by
    rw [div_num _ (by norm_num)]
    norm_num [r5]
  have hd3 : JSNum.mul (JSNum.div (JSNum.num 1) (JSNum.num 2)) (JSNum.num 100)
      = JSNum.num 50 := by
    rw [div_num _ (by norm_num), rhalf, mul_num]
    norm_num [r50]
  simp only [calcWindow, hf, hs, httl, htime]
  simp [scenarioLog, hd1, hd2, hd3, t32, t5]

/-- The scenario of C3: the log of one reply (TTL 64, 10 ms) and one failure gives
count 2, success 1, fail 1, avgTTL 32, avgTime 5 and packetLoss 50. -/
theorem calcWindow_averages_witness :
    (∃ r ∈ scenarioLog, r.timestamp ≥ 0) ∧
      calcWindow scenarioLog 0 =
        { count := 2, success := 1, fail := 1, ttlSum := Field.absent,
          timeSum := Field.absent, avgTTL := Field.val (JSNum.num 32),
          avgTime := Field.val (JSNum.num 5), packetLoss := Field.val (JSNum.num 50) } ∧
      (calcWindow scenarioLog 0).avgTTL
        = Field.val (toFixed 3
            (JSNum.div (ttlSumOf (scenarioLog.filter (fun r => decide (r.timestamp ≥ 0))))
              (JSNum.num
                ((scenarioLog.filter (fun r => decide (r.timestamp ≥ 0))).length : ℚ)))) :=
  ⟨⟨_, List.mem_cons_self _ _, by decide⟩, scenario_value,
    (calcWindow_averages scenarioLog 0 ⟨_, List.mem_cons_self _ _, by decide⟩).1⟩

/-! ## Two evaluations with inexact doubles -/

/-- The quotient 63 / 80 = 0.7875 is not a double; the nearest double lies below it,
so `toFixed(3)` prints `0.787`, read back as the double nearest to 0.787. -/
theorem avgTTL_tie_rounds_down :
    roundDouble (63 / 80) = JSNum.num (7093169413108531 / 9007199254740992) ∧
      (calcWindow tieLog 0).avgTTL
        = Field.val (JSNum.num (7088665813481161 / 9007199254740992)) ∧
      roundDouble (787 / 1000) = JSNum.num (7088665813481161 / 9007199254740992) := by
  have hq : roundDouble (63 / 80) = JSNum.num (7093169413108531 / 9007199254740992) := by
    have := roundDouble_eval (x := 63 / 80) (e := -1) (m := 7093169413108531)
      (by norm_num) (by norm_num) (by norm_num) (by norm_num) (by norm_num) (by norm_num)
    rw [this]
    norm_num
  have hr : roundDouble (787 / 1000) = JSNum.num (7088665813481161 / 9007199254740992) := by
    have := roundDouble_eval (x := 787 / 1000) (e := -1) (m := 7088665813481161)
      (by norm_num) (by norm_num) (by norm_num) (by norm_num) (by norm_num) (by norm_num)
    rw [this]
    norm_num
  refine ⟨hq, ?_, hr⟩
  have hf : tieLog.filter (fun h => decide (h.timestamp ≥ 0)) = tieLog := by
    rw [List.filter_eq_self]
    intro r hr
    simp only [tieLog, List.mem_append, List.mem_replicate, List.mem_singleton] at hr
    rcases hr with ⟨_, rfl⟩ | rfl <;> decide
  have hnat : ∀ r ∈ tieLog, NatTTL r := by
    intro r hr
    simp only [tieLog, List.mem_append, List.mem_replicate, List.mem_singleton] at hr
    rcases hr with ⟨_, rfl⟩ | rfl
    · exact Or.inl rfl
    · exact Or.inr ⟨63, by simp⟩
  have hsum : (tieLog.map ttlValue).sum = 63 := by
    simp [tieLog, ttlValue, failRecord]
  have hlen : tieLog.length = 80 := by simp [tieLog]
  have httl : ttlSumOf tieLog = JSNum.num 63 := by
    rw [ttlSumOf_exact tieLog hnat (by rw [hsum]; norm_num), hsum]
  have hfix : toFixed 3 (JSNum.num (7093169413108531 / 9007199254740992))
      = JSNum.num (7088665813481161 / 9007199254740992) := by
    rw [toFixed_of_nonneg 3 (by norm_num) (by norm_num)]
    have : ⌊(7093169413108531 / 9007199254740992 : ℚ) * (10 : ℚ) ^ 3 + 1 / 2⌋ = 787 := by
      rw [Int.floor_eq_iff]
      constructor <;> norm_num
    rw [this]
    norm_num [hr]
  have hcount : ((tieLog.length : ℤ)) ≠ 0 := by
    rw [hlen]
    norm_num
  simp only [calcWindow, hf, httl, if_pos hcount, hlen]
  rw [div_num _ (by norm_num)]
  norm_num [hq, hfix]

/-- Seven failures in 25 probes: the double `7 / 25` is multiplied by 100 and the
product is rounded to the double just above 28 (`28.000000000000004`). -/
theorem packetLoss_seven_of_25 :
    (calcWindow lossLog 0).count = 25 ∧ (calcWindow lossLog 0).fail = 7 ∧
      (calcWindow lossLog 0).packetLoss
        = Field.val (JSNum.num (7881299347898369 / 281474976710656)) ∧
      (7881299347898369 / 281474976710656 : ℚ) = 28 + 1 / 2 ^ 48 := by
  have hq : roundDouble (7 / 25) = JSNum.num (1261007895663739 / 4503599627370496) := by
    have := roundDouble_eval (x := 7 / 25) (e := -2) (m := 5044031582654956)
      (by norm_num) (by norm_num) (by norm_num) (by norm_num) (by norm_num) (by norm_num)
    rw [this]
    norm_num
  have hp : roundDouble (1261007895663739 / 4503599627370496 * 100)
      = JSNum.num (7881299347898369 / 281474976710656) := by
    have := roundDouble_eval (x := 1261007895663739 / 4503599627370496 * 100) (e := 4)
      (m := 7881299347898369)
      (by norm_num) (by norm_num) (by norm_num) (by norm_num) (by norm_num) (by norm_num)
    rw [this]
    norm_num
  have hf : lossLog.filter (fun h => decide (h.timestamp ≥ 0)) = lossLog := by
    rw [List.filter_eq_self]
    intro r hr
    simp only [lossLog, List.mem_append, List.mem_replicate] at hr
    rcases hr with ⟨_, rfl⟩ | ⟨_, rfl⟩ <;> decide
  have hlen : lossLog.length = 25 := by simp [lossLog]
  have hs : (lossLog.filter (fun h => h.success)).length = 18 := by
    simp [lossLog, List.filter_append, replyRecord, failRecord]
  refine ⟨?_, ?_, ?_, by norm_num⟩
  · simp only [calcWindow, hf, hlen]
    rfl
  · simp only [calcWindow, hf, hlen, hs]
    rfl
  · simp only [calcWindow, hf, hlen, hs]
    norm_num
    rw [div_num _ (by norm_num), hq, mul_num, hp]

/-! ## Pruning and aggregation together -/

theorem filter_since_prune (l : List Record) (cut since : Int) (h : cut ≤ since) :
    (l.filter (fun r => decide (r.timestamp ≥ cut))).filter
        (fun r => decide (r.timestamp ≥ since))
      = l.filter (fun r => decide (r.timestamp ≥ since)) := by
  rw [List.filter_filter]
  apply List.filter_congr
  intro r _
  by_cases hs : r.timestamp ≥ since
  · have : r.timestamp ≥ cut := le_trans h hs
    simp [hs, this]
  · simp [hs]

theorem calcWindow_prune (s : Stats) (now since : Int)
    (h : now - 31 * 24 * 60 * 60 * 1000 ≤ since) :
    calcWindow (pruneHistory now s).history since = calcWindow s.history since := by
  unfold calcWindow pruneHistory
  simp only [filter_since_prune _ _ _ h]

theorem calcWindow_count_mono (l : List Record) (a b : Int) (h : a ≤ b) :
    (calcWindow l b).count ≤ (calcWindow l a).count := by
  have e : l.filter (fun r => decide (r.timestamp ≥ b))
      = (l.filter (fun r => decide (r.timestamp ≥ a))).filter
          (fun r => decide (r.timestamp ≥ b)) := (filter_since_prune l a b h).symm
  simp only [calcWindow]
  rw [e]
  exact_mod_cast List.length_filter_le _ _

theorem calcWindow_count_le_length (l : List Record) (a : Int) :
    (calcWindow l a).count ≤ (l.length : Int) := by
  simp only [calcWindow]
  exact_mod_cast List.length_filter_le _ _

/-- C10: pruning at `now1` does not change any of the five aggregates that
`updateStats` computes at a later time `now2`, and the counts of the state after a
probe tick (clock readings `now1` in `pruneHistory`, `now2` in `updateStats`) are
nested: tenMinutes <= hour <= day <= week <= month <= length of the pruned history. -/
theorem updateStats_prune_invariant (s : Stats) (now1 now2 : Int) (h : now1 ≤ now2) :
    (updateStats now2 (pruneHistory now1 s)).tenMinutes = (updateStats now2 s).tenMinutes ∧
      (updateStats now2 (pruneHistory now1 s)).hour = (updateStats now2 s).hour ∧
      (updateStats now2 (pruneHistory now1 s)).day = (updateStats now2 s).day ∧
      (updateStats now2 (pruneHistory now1 s)).week = (updateStats now2 s).week ∧
      (updateStats now2 (pruneHistory now1 s)).month = (updateStats now2 s).month ∧
      ∀ (formatDateTime : Int → String) (error : Option String) (stdout : String) (now : Int),
        (ping formatDateTime error stdout now now1 now2 s).1.tenMinutes.count
            ≤ (ping formatDateTime error stdout now now1 now2 s).1.hour.count ∧
          (ping formatDateTime error stdout now now1 now2 s).1.hour.count
            ≤ (ping formatDateTime error stdout now now1 now2 s).1.day.count ∧
          (ping formatDateTime error stdout now now1 now2 s).1.day.count
            ≤ (ping formatDateTime error stdout now now1 now2 s).1.week.count ∧
          (ping formatDateTime error stdout now now1 now2 s).1.week.count
            ≤ (ping formatDateTime error stdout now now1 now2 s).1.month.count ∧
          (ping formatDateTime error stdout now now1 now2 s).1.month.count
            ≤ ((ping formatDateTime error stdout now now1 now2 s).1.history.length : Int) ∧
          (ping formatDateTime error stdout now now1 now2 s).1.history
            = (pruneHistory now1
                { s with history :=
                    s.history ++ [probeRecord formatDateTime error stdout now] }).history := by
  refine ⟨?_, ?_, ?_, ?_, ?_, ?_⟩
  · exact calcWindow_prune s now1 _ (by omega)
  · exact calcWindow_prune s now1 _ (by omega)
  · exact calcWindow_prune s now1 _ (by omega)
  · exact calcWindow_prune s now1 _ (by omega)
  · exact calcWindow_prune s now1 _ (by omega)
  · intro fmt error stdout now
    refine ⟨?_, ?_, ?_, ?_, ?_, rfl⟩
    · exact calcWindow_count_mono _ _ _ (by omega)
    · exact calcWindow_count_mono _ _ _ (by omega)
    · exact calcWindow_count_mono _ _ _ (by omega)
    · exact calcWindow_count_mono _ _ _ (by omega)
    · exact calcWindow_count_le_length _ _

/-- The invariance of C10 at the scenario log, pruned at time 3000000000 (which drops
both records) and aggregated 5 ms later. -/
theorem updateStats_prune_invariant_witness :
    (3000000000 : Int) ≤ 3000000005 ∧
      (updateStats 3000000005 (pruneHistory 3000000000 { initialStats with history := scenarioLog })).month
        = (updateStats 3000000005 { initialStats with history := scenarioLog }).month :=
  ⟨by decide,
    (updateStats_prune_invariant { initialStats with history := scenarioLog } 3000000000 3000000005
      (by decide)).2.2.2.2.1⟩

/-! ## The first tick -/

theorem roundDouble_57 : roundDouble 57 = JSNum.num 57 := by
  simpa using roundDouble_natCast 57 (by norm_num)

theorem roundDouble_eleven_four :
    roundDouble (57 / 5) = JSNum.num (6417629469002957 / 562949953421312) := by
  have := roundDouble_eval (x := 57 / 5) (e := 3) (m := 6417629469002957)
    (by norm_num) (by norm_num) (by norm_num) (by norm_num) (by norm_num) (by norm_num)
  rw [this]
  norm_num

theorem roundDouble_eleven_four_exact :
    roundDouble (6417629469002957 / 562949953421312)
      = JSNum.num (6417629469002957 / 562949953421312) := by
  have := roundDouble_dyadic 6417629469002957 (-49) (by norm_num) (by norm_num) (by norm_num)
  norm_num at this
  exact this

/-- A reply line of `ping` parsed by `parsePing`: the TTL is 57 and the time is the
double nearest to 11.4. -/
theorem parsePing_reply_line :
    parsePing "64 bytes from 1.1.1.1: icmp_seq=1 ttl=57 time=11.4 ms" =
      { ttl := some (JSNum.num 57),
        time := some (JSNum.num (6417629469002957 / 562949953421312)) } := by
  simp [parsePing, regexCapture, startsWith, parseInt10, parseFloat, digitsValue,
    Char.isDigit]
  constructor
  · norm_num [roundDouble_57]
  · norm_num [roundDouble_eleven_four]

theorem afterFirstTick_history :
    afterFirstTick.history =
      [ { timestamp := 1000, datetime := "1970-01-01 00:00:01", success := true,
          ttl := some (JSNum.num 57),
          time := some (JSNum.num (6417629469002957 / 562949953421312)) } ] := by
  have hp := parsePing_reply_line
  simp [afterFirstTick, ping, updateStats, pruneHistory, probeRecord, initialStats, hp]

theorem firstTick_window (since : Int) (h : since ≤ 1000) :
    calcWindow afterFirstTick.history since =
      { count := 1, success := 1, fail := 0, ttlSum := Field.absent, timeSum := Field.absent,
        avgTTL := Field.val (JSNum.num 57),
        avgTime := Field.val (JSNum.num (6417629469002957 / 562949953421312)),
        packetLoss := Field.val (JSNum.num 0) } := by
  have t57 : toFixed 3 (JSNum.num 57) = JSNum.num 57 := by
    simpa using toFixed_natCast 3 57 (by norm_num)
  have tfix : toFixed 3 (JSNum.num (6417629469002957 / 562949953421312))
      = JSNum.num (6417629469002957 / 562949953421312) := by
    rw [toFixed_of_nonneg 3 (by norm_num) (by norm_num)]
    have : ⌊(6417629469002957 / 562949953421312 : ℚ) * (10 : ℚ) ^ 3 + 1 / 2⌋ = 11400 := by
      rw [Int.floor_eq_iff]
      constructor <;> norm_num
    rw [this]
    norm_num [roundDouble_eleven_four]
  have hd : decide (1000 ≥ since) = true := decide_eq_true h
  rw [afterFirstTick_history]
  simp only [calcWindow, List.filter_cons, hd, if_true, List.filter_nil, ttlSumOf, timeSumOf,
    List.foldl_cons, List.foldl_nil, orZero, add_num, List.length_cons, List.length_nil]
  norm_num [roundDouble_57, roundDouble_eleven_four_exact, roundDouble_zero, t57, tfix,
    JSNum.div, JSNum.mul]

/-! ## Persistence and startup -/

theorem afterFirstTick_windows :
    afterFirstTick.tenMinutes =
        { count := 1, success := 1, fail := 0, ttlSum := Field.absent,
          timeSum := Field.absent, avgTTL := Field.val (JSNum.num 57),
          avgTime := Field.val (JSNum.num (6417629469002957 / 562949953421312)),
          packetLoss := Field.val (JSNum.num 0) } ∧
      afterFirstTick.month =
        { count := 1, success := 1, fail := 0, ttlSum := Field.absent,
          timeSum := Field.absent, avgTTL := Field.val (JSNum.num 57),
          avgTime := Field.val (JSNum.num (6417629469002957 / 562949953421312)),
          packetLoss := Field.val (JSNum.num 0) } := by
  have e1 : afterFirstTick.tenMinutes
      = calcWindow afterFirstTick.history (1000 - 10 * 60 * 1000) := rfl
  have e2 : afterFirstTick.month
      = calcWindow afterFirstTick.history (1000 - 30 * 24 * 60 * 60 * 1000) := rfl
  rw [e1, e2]
  exact ⟨firstTick_window _ (by norm_num), firstTick_window _ (by norm_num)⟩

/-- C4, on the code: `saveStats` after the first tick, then the startup load.  The
history file and the failure file are written as the claim says, the five
aggregates are read back, but the history read back is empty: the load takes the
branch of the summary file, which has no history, and never reads the history file. -/
theorem saveStats_reload_loses_history :
    (saveStats afterFirstTick).historyFile = some afterFirstTick.history ∧
      (saveStats afterFirstTick).failedFile
        = some (afterFirstTick.history.filter (fun h => !h.success)) ∧
      (startupLoad (saveStats afterFirstTick)).tenMinutes = afterFirstTick.tenMinutes ∧
      (startupLoad (saveStats afterFirstTick)).month = afterFirstTick.month ∧
      afterFirstTick.history ≠ [] ∧
      (startupLoad (saveStats afterFirstTick)).history = [] ∧
      startupLoad (saveStats afterFirstTick) ≠ afterFirstTick := by
  have hh := afterFirstTick_history
  have hw := afterFirstTick_windows
  have hl : (startupLoad (saveStats afterFirstTick)).history = [] := rfl
  have h1 : (startupLoad (saveStats afterFirstTick)).tenMinutes
      = jsonWindow afterFirstTick.tenMinutes := rfl
  have h2 : (startupLoad (saveStats afterFirstTick)).month
      = jsonWindow afterFirstTick.month := rfl
  refine ⟨?_, ?_, ?_, ?_, ?_, hl, ?_⟩
  · simp [saveStats, hh, jsonRecord, jsonNum]
  · simp [saveStats, hh, jsonRecord, jsonNum]
  · rw [h1, hw.1]
    simp [jsonWindow, jsonField]
  · rw [h2, hw.2]
    simp [jsonWindow, jsonField]
  · simp [hh]
  · intro h
    rw [h, hh] at hl
    simp at hl

theorem calcWindow_nil (since : Int) :
    calcWindow [] since =
      { count := 0, success := 0, fail := 0, ttlSum := Field.absent, timeSum := Field.absent,
        avgTTL := Field.val (JSNum.num 0), avgTime := Field.val (JSNum.num 0),
        packetLoss := Field.val (JSNum.num 0) } := by
  simp [calcWindow]

theorem uptimeStats_calcWindow_nil (since : Int) :
    uptimeStats (calcWindow [] since) =
      { window := { count := 0, success := 0, fail := 0, ttlSum := Field.absent,
                    timeSum := Field.absent, avgTTL := Field.val (JSNum.num 0),
                    avgTime := Field.val (JSNum.num 0),
                    packetLoss := Field.val (JSNum.num 0) }
        uptime := JSNum.num 0
        downtime := JSNum.num 0 } := by
  simp [calcWindow_nil, uptimeStats]

/-- C8, on the code: a fresh process (no file) has an empty log, and the window
query on it has count, success, fail, uptime and downtime 0 but no `avgTTL`,
`avgTime` or `packetLoss` at all (it has `ttlSum` and `timeSum` instead); and a
process started from the files of `saveStats` has an empty log with the persisted,
non-zero aggregates. -/
theorem uptimeStats_empty_log_at_start :
    (startupLoad { statsFile := none, historyFile := none, failedFile := none }).history = [] ∧
      uptimeStats
          (startupLoad { statsFile := none, historyFile := none, failedFile := none }).tenMinutes
        = { window := { count := 0, success := 0, fail := 0,
                        ttlSum := Field.val (JSNum.num 0), timeSum := Field.val (JSNum.num 0),
                        avgTTL := Field.absent, avgTime := Field.absent,
                        packetLoss := Field.absent }
            uptime := JSNum.num 0
            downtime := JSNum.num 0 } ∧
      (uptimeStats
          (startupLoad { statsFile := none, historyFile := none, failedFile := none }).tenMinutes
        ).window.avgTTL ≠ Field.val (JSNum.num 0) ∧
      (startupLoad (saveStats afterFirstTick)).history = [] ∧
      (uptimeStats (startupLoad (saveStats afterFirstTick)).tenMinutes).window.count = 1 := by
  refine ⟨rfl, ?_, ?_, rfl, ?_⟩
  · simp [startupLoad, initialStats, initialWindow, uptimeStats]
  · simp [startupLoad, initialStats, initialWindow, uptimeStats]
  · have e : (startupLoad (saveStats afterFirstTick)).tenMinutes
        = jsonWindow afterFirstTick.tenMinutes := rfl
    rw [e, afterFirstTick_windows.1]
    rfl

/-- C5, on the code: with a history file only (the scenario log), the load sets the
log to the stored sequence but does not recompute: the ten-minute aggregate stays
the initial object, count 0, while `calc` on the loaded log at time 1000 counts 2
records. -/
theorem startupLoad_does_not_recompute :
    (startupLoad historyOnlyDisk).history = scenarioLog ∧
      (startupLoad historyOnlyDisk).tenMinutes.count = 0 ∧
      (calcWindow (startupLoad historyOnlyDisk).history (1000 - 10 * 60 * 1000)).count = 2 ∧
      (startupLoad historyOnlyDisk).tenMinutes
        ≠ calcWindow (startupLoad historyOnlyDisk).history (1000 - 10 * 60 * 1000) := by
  have h1 : (startupLoad historyOnlyDisk).history = scenarioLog := rfl
  have h2 : (startupLoad historyOnlyDisk).tenMinutes.count = 0 := rfl
  have h3 : (calcWindow (startupLoad historyOnlyDisk).history (1000 - 10 * 60 * 1000)).count
      = 2 := by
    rw [h1]
    simp [calcWindow, scenarioLog]
  refine ⟨h1, h2, h3, ?_⟩
  intro h
  rw [h] at h2
  rw [h2] at h3
  exact absurd h3 (by decide)

/-! ## The probe record -/

/-- C7, on the code: for the output `time=.` the pattern of `parsePing` captures the
lone dot, `parseFloat` makes `NaN` of it, and `parsePing` returns that `NaN` as the
time, not `null` (the TTL of that output is `null`). -/
theorem parsePing_time_nan :
    (parsePing "time=.").time = some JSNum.nan ∧ (parsePing "time=.").ttl = none := by
  simp [parsePing, regexCapture, startsWith, parseFloat, Char.isDigit]

theorem startsWith_iff (marker s : List Char) :
    startsWith marker s = true ↔ ∃ rest, s = marker ++ rest := by
  induction marker generalizing s with
  | nil => simp [startsWith]
  | cons a ms ih =>
    cases s with
    | nil => simp [startsWith]
    | cons c cs =>
      simp only [startsWith, Bool.and_eq_true, beq_iff_eq, ih, List.cons_append,
        List.cons.injEq]
      constructor
      · rintro ⟨rfl, rest, rfl⟩
        exact ⟨rest, rfl, rfl⟩
      · rintro ⟨rest, rfl, rfl⟩
        exact ⟨rfl, rest, rfl⟩

theorem takeWhile_nonempty_iff (cls : Char → Bool) (l : List Char) :
    (l.takeWhile cls).isEmpty = false ↔ ∃ d post, l = d :: post ∧ cls d = true := by
  cases l with
  | nil => simp
  | cons d post =>
    by_cases hd : cls d = true
    · simp [List.takeWhile_cons, hd]
    · simp [List.takeWhile_cons, hd]

theorem head_match_iff (marker : List Char) (cls : Char → Bool) (s : List Char) :
    (startsWith marker s && !((s.drop marker.length).takeWhile cls).isEmpty) = true ↔
      ∃ d post, s = marker ++ d :: post ∧ cls d = true := by
  rw [Bool.and_eq_true, startsWith_iff, Bool.not_eq_true', takeWhile_nonempty_iff]
  constructor
  · rintro ⟨⟨rest, rfl⟩, d, post, hdrop, hd⟩
    rw [List.drop_left] at hdrop
    exact ⟨d, post, by rw [hdrop], hd⟩
  · rintro ⟨d, post, rfl, hd⟩
    exact ⟨⟨d :: post, rfl⟩, d, post, by rw [List.drop_left], hd⟩

theorem regexCapture_eq_none_iff (marker : List Char) (cls : Char → Bool) (s : List Char) :
    regexCapture marker cls s = none ↔ ¬ HasMatch marker cls s := by
  induction s with
  | nil =>
    simp only [regexCapture, true_iff]
    rintro ⟨pre, d, post, h, _⟩
    have := congrArg List.length h
    simp at this
    omega
  | cons c cs ih =>
    by_cases hm : (startsWith marker (c :: cs)
        && !(((c :: cs).drop marker.length).takeWhile cls).isEmpty) = true
    · have hsome : regexCapture marker cls (c :: cs) ≠ none := by
        simp only [regexCapture, hm, if_true]
        simp
      obtain ⟨d, post, hs, hd⟩ := (head_match_iff marker cls (c :: cs)).mp hm
      have hhas : HasMatch marker cls (c :: cs) := ⟨[], d, post, by simpa using hs, hd⟩
      exact ⟨fun h => absurd h hsome, fun h => absurd hhas h⟩
    · have hstep : regexCapture marker cls (c :: cs) = regexCapture marker cls cs := by
        simp only [regexCapture, hm]
        simp
      rw [hstep, ih]
      have hiff : HasMatch marker cls (c :: cs) ↔ HasMatch marker cls cs := by
        constructor
        · rintro ⟨pre, d, post, hs, hd⟩
          cases pre with
          | nil =>
            exact absurd ((head_match_iff marker cls (c :: cs)).mpr
              ⟨d, post, by simpa using hs, hd⟩) hm
          | cons p pre =>
            simp only [List.cons_append, List.cons.injEq] at hs
            exact ⟨pre, d, post, hs.2, hd⟩
        · rintro ⟨pre, d, post, hs, hd⟩
          exact ⟨c :: pre, d, post, by simp [hs], hd⟩
      rw [hiff]

theorem parsePing_noReplyReport :
    parsePing noReplyReport = { ttl := none, time := none } := by
  simp [parsePing, noReplyReport, regexCapture, startsWith, Char.isDigit]

/-- C6 as stated fails: a probe that reports an error while its output holds a reply
line is recorded with success false and with the TTL and the time of that line. -/
theorem probeRecord_failed_with_values :
    (probeRecord (fun _ => "") (some "Command failed")
        "64 bytes from 1.1.1.1: icmp_seq=1 ttl=57 time=11.4 ms" 0).success = false ∧
      (probeRecord (fun _ => "") (some "Command failed")
        "64 bytes from 1.1.1.1: icmp_seq=1 ttl=57 time=11.4 ms" 0).ttl
        = some (JSNum.num 57) ∧
      (probeRecord (fun _ => "") (some "Command failed")
        "64 bytes from 1.1.1.1: icmp_seq=1 ttl=57 time=11.4 ms" 0).time
        = some (JSNum.num (6417629469002957 / 562949953421312)) := by
  have hp := parsePing_reply_line
  simp [probeRecord, hp]

/-- C6, amended: the record that `ping` appends has success true exactly when the
probe reported no error; its `ttl` is `null` exactly when the output has no `ttl=`
immediately followed by a decimal digit, and its `time` is `null` exactly when the
output has no `time=` immediately followed by a digit or a dot, whether or not the
probe reported an error.  So a failed probe has both `null` unless its output holds
such text: they are `null` for the empty output and for the report of a `ping`
without reply. -/
theorem probeRecord_fields (formatDateTime : Int → String) (error : Option String)
    (stdout : String) (now nowPrune nowUpdate : Int) (s : Stats) :
    ((probeRecord formatDateTime error stdout now).success = true ↔ error = none) ∧
      ((probeRecord formatDateTime error stdout now).ttl = none ↔
        ¬ HasMatch ['t', 't', 'l', '='] Char.isDigit stdout.toList) ∧
      ((probeRecord formatDateTime error stdout now).time = none ↔
        ¬ HasMatch ['t', 'i', 'm', 'e', '='] (fun c => c.isDigit || c == '.') stdout.toList) ∧
      (probeRecord formatDateTime error stdout now).ttl = (parsePing stdout).ttl ∧
      (probeRecord formatDateTime error stdout now).time = (parsePing stdout).time ∧
      (probeRecord formatDateTime error stdout now).timestamp = now ∧
      (probeRecord formatDateTime error "" now).ttl = none ∧
      (probeRecord formatDateTime error "" now).time = none ∧
      (probeRecord formatDateTime error noReplyReport now).ttl = none ∧
      (probeRecord formatDateTime error noReplyReport now).time = none ∧
      (ping formatDateTime error stdout now nowPrune nowUpdate s).1.history
        = (s.history ++ [probeRecord formatDateTime error stdout now]).filter
            (fun r => decide (r.timestamp ≥ nowPrune - 2678400000)) := by
  have hrep := parsePing_noReplyReport
  refine ⟨?_, ?_, ?_, rfl, rfl, rfl, ?_, ?_, ?_, ?_, ?_⟩
  · cases error <;> simp [probeRecord]
  · simp only [probeRecord, parsePing, Option.map_eq_none']
    exact regexCapture_eq_none_iff _ _ _
  · simp only [probeRecord, parsePing, Option.map_eq_none']
    exact regexCapture_eq_none_iff _ _ _
  · simp [probeRecord, parsePing, regexCapture]
  · simp [probeRecord, parsePing, regexCapture]
  · simp [probeRecord, hrep]
  · simp [probeRecord, hrep]
  · simp [ping, pruneHistory, updateStats]

/-! ## The average TTL against the mean of the present values -/

theorem sum_present_eq (l : List Record) :
    ((l.filter (fun r => r.ttl.isSome)).map ttlValue).sum = (l.map ttlValue).sum := by
  induction l with
  | nil => simp
  | cons x xs ih =>
    cases hx : x.ttl with
    | none => simp [List.filter_cons, hx, ih, ttlValue]
    | some v => simp [List.filter_cons, hx, ih]

theorem present_length_lt (l : List Record) (h : ∃ r ∈ l, r.ttl = none) :
    (l.filter (fun r => r.ttl.isSome)).length < l.length := by
  induction l with
  | nil => simp at h
  | cons x xs ih =>
    cases hx : x.ttl with
    | none =>
      simp only [List.filter_cons, hx, Option.isSome_none, List.length_cons]
      have := List.length_filter_le (fun r : Record => r.ttl.isSome) xs
      simp only [Bool.false_eq_true, if_false]
      omega
    | some v =>
      simp only [List.filter_cons, hx, Option.isSome_some, if_true, List.length_cons]
      have h2 : ∃ r ∈ xs, r.ttl = none := by
        obtain ⟨r, hr, hn⟩ := h
        rcases List.mem_cons.mp hr with e | e
        · rw [e, hx] at hn
          cases hn
        · exact ⟨r, e, hn⟩
      have := ih h2
      omega

theorem present_length_pos (l : List Record) (h : ∃ r ∈ l, r.ttl ≠ none) :
    0 < (l.filter (fun r => r.ttl.isSome)).length := by
  obtain ⟨r, hr, hn⟩ := h
  have : r ∈ l.filter (fun r => r.ttl.isSome) := by
    rw [List.mem_filter]
    exact ⟨hr, Option.isSome_iff_ne_none.mpr hn⟩
  exact List.length_pos_of_mem this

theorem sum_ttlValue_pos_iff (l : List Record) (h : ∀ r ∈ l, NatTTL r) :
    0 < (l.map ttlValue).sum ↔
      ∃ r ∈ l, ∃ n : ℕ, r.ttl = some (JSNum.num (n : ℚ)) ∧ 0 < n := by
  induction l with
  | nil => simp
  | cons x xs ih =>
    have hxs : ∀ r ∈ xs, NatTTL r := fun r hr => h r (List.mem_cons_of_mem _ hr)
    have hrest := sum_ttlValue_nonneg xs hxs
    have ih2 := ih hxs
    simp only [List.map_cons, List.sum_cons, List.mem_cons]
    rcases h x (List.mem_cons_self _ _) with hx | ⟨k, hx⟩
    · have hv : ttlValue x = 0 := by simp [ttlValue, hx]
      rw [hv, zero_add, ih2]
      constructor
      · rintro ⟨r, hr, n, hn, hp⟩
        exact ⟨r, Or.inr hr, n, hn, hp⟩
      · rintro ⟨r, hr | hr, n, hn, hp⟩
        · rw [hr, hx] at hn
          cases hn
        · exact ⟨r, hr, n, hn, hp⟩
    · have hv : ttlValue x = (k : ℚ) := by simp [ttlValue, hx]
      rw [hv]
      constructor
      · intro hpos
        by_cases hk : 0 < k
        · exact ⟨x, Or.inl rfl, k, hx, hk⟩
        · have hk0 : k = 0 := by omega
          rw [hk0] at hpos
          simp only [Nat.cast_zero, zero_add] at hpos
          obtain ⟨r, hr, n, hn, hp⟩ := ih2.mp hpos
          exact ⟨r, Or.inr hr, n, hn, hp⟩
      · rintro ⟨r, hr | hr, n, hn, hp⟩
        · rw [hr, hx] at hn
          simp only [Option.some.injEq, JSNum.num.injEq, Nat.cast_inj] at hn
          have : (0 : ℚ) < (k : ℚ) := by
            rw [hn]
            exact_mod_cast hp
          linarith
        · have := ih2.mpr ⟨r, hr, n, hn, hp⟩
          have hk : (0 : ℚ) ≤ (k : ℚ) := by positivity
          linarith

/-- C9 as stated fails: in the log of one reply with TTL 0 and one failed probe the
matching records have a null and a non-null TTL, `avgTTL` is 0 and the mean of the
non-null TTL values is 0 as well, so `avgTTL` is not strictly less. -/
theorem avgTTL_not_below_mean :
    (∃ r ∈ zeroTtlLog, r.timestamp ≥ 0 ∧ r.ttl = none) ∧
      (∃ r ∈ zeroTtlLog, r.timestamp ≥ 0 ∧ r.ttl ≠ none) ∧
      (calcWindow zeroTtlLog 0).avgTTL = Field.val (JSNum.num 0) ∧
      meanPresentTTL zeroTtlLog 0 = 0 ∧
      ¬ ∃ a : ℚ, (calcWindow zeroTtlLog 0).avgTTL = Field.val (JSNum.num a) ∧
          a < meanPresentTTL zeroTtlLog 0 := by
  have t0 : toFixed 3 (JSNum.num 0) = JSNum.num 0 := by
    simpa using toFixed_natCast 3 0 (by norm_num)
  have hf : zeroTtlLog.filter (fun h => decide (h.timestamp ≥ 0)) = zeroTtlLog := by
    simp [zeroTtlLog]
  have httl : ttlSumOf zeroTtlLog = JSNum.num 0 := by
    simp [ttlSumOf, zeroTtlLog, orZero, add_num, roundDouble_zero]
  have ha : (calcWindow zeroTtlLog 0).avgTTL = Field.val (JSNum.num 0) := by
    simp only [calcWindow, hf, httl]
    simp [zeroTtlLog, JSNum.div, roundDouble_zero, t0]
  have hm : meanPresentTTL zeroTtlLog 0 = 0 := by
    simp [meanPresentTTL, zeroTtlLog, ttlValue]
  refine ⟨?_, ?_, ha, hm, ?_⟩
  · exact ⟨_, List.mem_cons_of_mem _ (List.mem_cons_self _ _), by decide, rfl⟩
  · exact ⟨_, List.mem_cons_self _ _, by decide, by simp⟩
  · rintro ⟨a, h1, h2⟩
    rw [ha] at h1
    simp only [Field.val.injEq, JSNum.num.injEq] at h1
    rw [hm, ← h1] at h2
    exact lt_irrefl _ h2

/-- C9, amended: when the records with `timestamp >= since` hold at least one null
TTL and at least one non-null TTL, all TTL values being natural numbers with a sum
below `2^53`, `avgTTL` is a finite number that is at most the mean of the non-null
TTL values put through the same rounding (to the nearest double, then to 3
decimals); the exact quotient (sum of the TTL values, null as 0, over the number of
matching records) is at most that mean, strictly less exactly when some matching
TTL is positive. -/
theorem avgTTL_le_rounded_mean (history : List Record) (since : Int)
    (hnull : ∃ r ∈ history, r.timestamp ≥ since ∧ r.ttl = none)
    (hsome : ∃ r ∈ history, r.timestamp ≥ since ∧ r.ttl ≠ none)
    (hnat : ∀ r ∈ history, NatTTL r)
    (hsum : ((history.filter (fun r => decide (r.timestamp ≥ since))).map ttlValue).sum
      < 2 ^ 53) :
    (∃ a b : ℚ, (calcWindow history since).avgTTL = Field.val (JSNum.num a) ∧
        toFixed 3 (roundDouble (meanPresentTTL history since)) = JSNum.num b ∧
        0 ≤ a ∧ a ≤ b) ∧
      ttlQuotient history since ≤ meanPresentTTL history since ∧
      (ttlQuotient history since < meanPresentTTL history since ↔
        ∃ r ∈ history, r.timestamp ≥ since ∧
          ∃ n : ℕ, r.ttl = some (JSNum.num (n : ℚ)) ∧ 0 < n) := by
  have hnull2 : ∃ r ∈ history.filter (fun r => decide (r.timestamp ≥ since)), r.ttl = none := by
    obtain ⟨r, hr, ht, hn⟩ := hnull
    exact ⟨r, List.mem_filter.mpr ⟨hr, decide_eq_true ht⟩, hn⟩
  have hsome2 : ∃ r ∈ history.filter (fun r => decide (r.timestamp ≥ since)), r.ttl ≠ none := by
    obtain ⟨r, hr, ht, hn⟩ := hsome
    exact ⟨r, List.mem_filter.mpr ⟨hr, decide_eq_true ht⟩, hn⟩
  have hex : ∃ r ∈ history, r.timestamp ≥ since := by
    obtain ⟨r, hr, ht, _⟩ := hnull
    exact ⟨r, hr, ht⟩
  have hnatM : ∀ r ∈ history.filter (fun r => decide (r.timestamp ≥ since)), NatTTL r :=
    fun r hr => hnat r (List.mem_filter.mp hr).1
  have hlen := filter_length_ne_zero history since hex
  have hne : history.filter (fun r => decide (r.timestamp ≥ since)) ≠ [] := by
    intro he
    rw [he] at hlen
    exact hlen rfl
  have hlt := present_length_lt _ hnull2
  have hpos := present_length_pos _ hsome2
  have hS0 := sum_ttlValue_nonneg _ hnatM
  have hiff := sum_ttlValue_pos_iff _ hnatM
  obtain ⟨hd, _, hq0, _⟩ := ttl_quotient_double _ hnatM hsum hne
  have hA := (calcWindow_avg_eq history since hlen).1
  have hq : ttlQuotient history since
      = ((history.filter (fun r => decide (r.timestamp ≥ since))).map ttlValue).sum
          / ((history.filter (fun r => decide (r.timestamp ≥ since))).length : ℚ) := rfl
  have hm : meanPresentTTL history since
      = ((history.filter (fun r => decide (r.timestamp ≥ since))).map ttlValue).sum
          / (((history.filter (fun r => decide (r.timestamp ≥ since))).filter
              (fun r => r.ttl.isSome)).length : ℚ) := by
    unfold meanPresentTTL
    simp only [sum_present_eq]
  have hiff2 : 0 < ((history.filter (fun r => decide (r.timestamp ≥ since))).map ttlValue).sum
      ↔ ∃ r ∈ history, r.timestamp ≥ since ∧
          ∃ n : ℕ, r.ttl = some (JSNum.num (n : ℚ)) ∧ 0 < n := by
    rw [hiff]
    constructor
    · rintro ⟨r, hr, n, hn, hp⟩
      have := List.mem_filter.mp hr
      exact ⟨r, this.1, of_decide_eq_true this.2, n, hn, hp⟩
    · rintro ⟨r, hr, ht, n, hn, hp⟩
      exact ⟨r, List.mem_filter.mpr ⟨hr, decide_eq_true ht⟩, n, hn, hp⟩
  rw [← hiff2]
  rw [← hq] at hd hq0
  generalize (history.filter (fun r => decide (r.timestamp ≥ since))).length = c at hlt hq
  generalize ((history.filter (fun r => decide (r.timestamp ≥ since))).filter
    (fun r => r.ttl.isSome)).length = k at hlt hpos hm
  generalize ((history.filter (fun r => decide (r.timestamp ≥ since))).map ttlValue).sum = S
    at hq hm hsum hS0
  have hk : (0 : ℚ) < k := by exact_mod_cast hpos
  have hk1 : (1 : ℚ) ≤ k := by exact_mod_cast hpos
  have hkc : (k : ℚ) < c := by exact_mod_cast hlt
  have hc : (0 : ℚ) < c := lt_trans hk hkc
  have hle : ttlQuotient history since ≤ meanPresentTTL history since := by
    rw [hq, hm]
    exact div_le_div_of_nonneg_left hS0 hk hkc.le
  have hx0 : 0 ≤ ttlQuotient history since := by
    rw [hq]
    positivity
  have hmS : meanPresentTTL history since ≤ S := by
    rw [hm]
    exact div_le_self hS0 hk1
  have h53 : ((1 : ℕ) : ℚ) * (2 : ℚ) ^ (53 : ℤ) = 2 ^ 53 := by norm_num
  have hbig : meanPresentTTL history since ≤ (2 : ℚ) ^ (1023 : ℤ) := by
    have : (2 : ℚ) ^ (53 : ℤ) ≤ (2 : ℚ) ^ (1023 : ℤ) :=
      zpow_le_zpow_right₀ (by norm_num) (by norm_num)
    have e : (2 : ℚ) ^ (53 : ℤ) = 2 ^ 53 := by norm_num
    linarith
  obtain ⟨_, hry, hmono⟩ := roundDouble_mono hx0 hle hbig
  have hup : roundMag (meanPresentTTL history since) ≤ 2 ^ 53 := by
    have := roundMag_le_of_le 1 53 (le_trans hx0 hle) (by norm_num) (by norm_num)
      (by rw [h53]; linarith)
    rwa [h53] at this
  have h21 : roundMag (meanPresentTTL history since) < (10 : ℚ) ^ 21 := by
    have : (2 : ℚ) ^ 53 < 10 ^ 21 := by norm_num
    linarith
  obtain ⟨a, b, ha, hb, ha0, hab⟩ := toFixed_mono 3 hq0 hmono h21
  refine ⟨⟨a, b, ?_, ?_, ha0, hab⟩, hle, ?_⟩
  · rw [hA, hd, ha]
  · rw [hry, hb]
  · rw [hq, hm]
    constructor
    · intro h
      by_contra h0
      have hS : S = 0 := le_antisymm (not_lt.mp h0) hS0
      rw [hS] at h
      simp at h
    · intro h
      exact div_lt_div_of_pos_left h hk hkc

/-- The bound of C9 at the scenario log: one reply with TTL 64, one failed probe. -/
theorem avgTTL_le_rounded_mean_witness :
    (∃ r ∈ scenarioLog, r.timestamp ≥ 0 ∧ r.ttl = none) ∧
      (∃ r ∈ scenarioLog, r.timestamp ≥ 0 ∧ r.ttl ≠ none) ∧
      (∀ r ∈ scenarioLog, NatTTL r) ∧
      ((scenarioLog.filter (fun r => decide (r.timestamp ≥ 0))).map ttlValue).sum < 2 ^ 53 ∧
      ttlQuotient scenarioLog 0 < meanPresentTTL scenarioLog 0 := by
  have h1 : ∃ r ∈ scenarioLog, r.timestamp ≥ 0 ∧ r.ttl = none :=
    ⟨_, List.mem_cons_of_mem _ (List.mem_cons_self _ _), by decide, rfl⟩
  have h2 : ∃ r ∈ scenarioLog, r.timestamp ≥ 0 ∧ r.ttl ≠ none :=
    ⟨_, List.mem_cons_self _ _, by decide, by simp⟩
  have h3 : ∀ r ∈ scenarioLog, NatTTL r := by
    intro r hr
    simp only [scenarioLog, List.mem_cons, List.mem_singleton, List.not_mem_nil,
      or_false] at hr
    rcases hr with rfl | rfl
    · exact Or.inr ⟨64, by simp⟩
    · exact Or.inl rfl
  have h4 : ((scenarioLog.filter (fun r => decide (r.timestamp ≥ 0))).map ttlValue).sum
      < 2 ^ 53 := by
    simp [scenarioLog, ttlValue]
    norm_num
  exact ⟨h1, h2, h3, h4,
    (avgTTL_le_rounded_mean scenarioLog 0 h1 h2 h3 h4).2.2.mpr
      ⟨_, List.mem_cons_self _ _, by decide, 64, by simp, by decide⟩⟩

theorem longRun_values (n : Nat) (hn : n * 64 < 2 ^ 53) :
    (List.replicate n replyRecord ++ [failRecord]).filter
          (fun r => decide (r.timestamp ≥ 0))
        = List.replicate n replyRecord ++ [failRecord] ∧
      ttlSumOf (List.replicate n replyRecord ++ [failRecord]) = JSNum.num ((n : ℚ) * 64) ∧
      meanPresentTTL (List.replicate n replyRecord ++ [failRecord]) 0
        = ((n : ℚ) * 64) / (n : ℚ) := by
  have hf : (List.replicate n replyRecord ++ [failRecord]).filter
        (fun r => decide (r.timestamp ≥ 0))
      = List.replicate n replyRecord ++ [failRecord] := by
    rw [List.filter_eq_self]
    intro r hr
    simp only [List.mem_append, List.mem_replicate, List.mem_singleton] at hr
    rcases hr with ⟨_, rfl⟩ | rfl <;> decide
  have hnat : ∀ r ∈ List.replicate n replyRecord ++ [failRecord], NatTTL r := by
    intro r hr
    simp only [List.mem_append, List.mem_replicate, List.mem_singleton] at hr
    rcases hr with ⟨_, rfl⟩ | rfl
    · exact Or.inr ⟨64, by simp [replyRecord]⟩
    · exact Or.inl rfl
  have hsum : ((List.replicate n replyRecord ++ [failRecord]).map ttlValue).sum
      = (n : ℚ) * 64 := by
    simp [List.sum_replicate, ttlValue, replyRecord, failRecord]
  refine ⟨hf, ?_, ?_⟩
  · rw [ttlSumOf_exact _ hnat (by
      rw [hsum]
      have : ((n * 64 : ℕ) : ℚ) < ((2 ^ 53 : ℕ) : ℚ) := by exact_mod_cast hn
      push_cast at this
      linarith), hsum]
  · simp only [meanPresentTTL, hf, sum_present_eq, hsum]
    simp [List.filter_append, replyRecord, failRecord]

theorem longRun_avgTTL (n : Nat) (hn : n * 64 < 2 ^ 53) :
    (calcWindow (List.replicate n replyRecord ++ [failRecord]) 0).avgTTL
      = Field.val (toFixed 3 (roundDouble ((n : ℚ) * 64 / ((n : ℚ) + 1)))) := by
  obtain ⟨hf, httl, _⟩ := longRun_values n hn
  have hlen : (List.replicate n replyRecord ++ [failRecord]).length = n + 1 := by
    rw [List.length_append, List.length_replicate, List.length_singleton]
  have hc : (((n + 1 : ℕ) : ℤ)) ≠ 0 := by omega
  have hcq : (((n + 1 : ℕ) : ℤ) : ℚ) ≠ 0 := by exact_mod_cast hc
  simp only [calcWindow, hf, httl, hlen, if_pos hc]
  rw [div_num _ hcq]
  push_cast
  rfl

/-- The rounding alone can lift `avgTTL` to the mean of the non-null values: after
128000 replies with TTL 64 and one failed probe the quotient 8192000 / 128001 is
rounded to 64. -/
theorem avgTTL_rounds_up_to_mean :
    (calcWindow longRunLog 0).avgTTL = Field.val (JSNum.num 64) ∧
      meanPresentTTL longRunLog 0 = 64 := by
  have hx0 : (0 : ℚ) ≤ 8192000 / 128001 := by norm_num
  have hfin : roundDouble (8192000 / 128001) = JSNum.num (roundMag (8192000 / 128001)) :=
    roundDouble_finite hx0 (by
      have h0 : (64 : ℚ) ≤ (2 : ℚ) ^ (1023 : ℤ) := by
        have h1 : (64 : ℚ) = (2 : ℚ) ^ (6 : ℤ) := by norm_num
        rw [h1]
        exact zpow_le_zpow_right₀ (by norm_num) (by norm_num)
      have : (8192000 / 128001 : ℚ) ≤ 64 := by norm_num
      linarith)
  have herr := roundMag_err (a := 8192000 / 128001) 5 hx0 (by norm_num) (by norm_num)
  have e48 : (2 : ℚ) ^ ((5 : ℤ) - 53) = 1 / 2 ^ 48 := by norm_num
  rw [e48, abs_le] at herr
  have hq0 : 0 ≤ roundMag (8192000 / 128001) := roundMag_nonneg hx0
  have hfix : toFixed 3 (JSNum.num (roundMag (8192000 / 128001))) = JSNum.num 64 := by
    rw [toFixed_of_nonneg 3 hq0 (by
      have : (8192000 / 128001 : ℚ) + 1 / 2 ^ 48 < 10 ^ 21 := by norm_num
      linarith [herr.2])]
    have hfl : ⌊roundMag (8192000 / 128001) * (10 : ℚ) ^ 3 + 1 / 2⌋ = 64000 := by
      rw [Int.floor_eq_iff]
      have h1 : (64000 : ℚ) ≤ (8192000 / 128001 - 1 / 2 ^ 48) * 10 ^ 3 + 1 / 2 := by norm_num
      have h2 : (8192000 / 128001 + 1 / 2 ^ 48 : ℚ) * 10 ^ 3 + 1 / 2 < 64000 + 1 := by
        norm_num
      constructor
      · push_cast
        nlinarith [herr.1]
      · push_cast
        nlinarith [herr.2]
    rw [hfl]
    have := roundDouble_natCast 64 (by norm_num)
    norm_num at this ⊢
    exact this
  have e : (((128000 : ℕ) : ℚ) * 64 / (((128000 : ℕ) : ℚ) + 1)) = 8192000 / 128001 := by
    norm_num
  have em : (((128000 : ℕ) : ℚ) * 64) / ((128000 : ℕ) : ℚ) = 64 := by norm_num
  constructor
  · exact (longRun_avgTTL 128000 (by norm_num)).trans (by rw [e, hfin, hfix])
  · exact (longRun_values 128000 (by norm_num)).2.2.trans em

/-! ## Further evaluations with inexact doubles -/

/-- An uptime of 23 probes in 160: the double product `(23 / 160) * 100` lies just
below 14.375, so `toFixed(2)` prints `14.37`. -/
theorem uptime_23_of_160 :
    (uptimeStats { count := 160, success := 23, fail := 137, ttlSum := Field.absent,
                   timeSum := Field.absent, avgTTL := Field.val (JSNum.num 0),
                   avgTime := Field.val (JSNum.num 0),
                   packetLoss := Field.val (JSNum.num 0) }).uptime
        = JSNum.num (8089590830664253 / 562949953421312) ∧
      roundDouble (1437 / 100) = JSNum.num (8089590830664253 / 562949953421312) := by
  have hq : roundDouble (23 / 160) = JSNum.num (2589569785738035 / 18014398509481984) := by
    have := roundDouble_eval (x := 23 / 160) (e := -3) (m := 5179139571476070)
      (by norm_num) (by norm_num) (by norm_num) (by norm_num) (by norm_num) (by norm_num)
    rw [this]
    norm_num
  have hp : roundDouble (2589569785738035 / 18014398509481984 * 100)
      = JSNum.num (8092405580431359 / 562949953421312) := by
    have := roundDouble_eval (x := 2589569785738035 / 18014398509481984 * 100) (e := 3)
      (m := 8092405580431359)
      (by norm_num) (by norm_num) (by norm_num) (by norm_num) (by norm_num) (by norm_num)
    rw [this]
    norm_num
  have hr : roundDouble (1437 / 100) = JSNum.num (8089590830664253 / 562949953421312) := by
    have := roundDouble_eval (x := 1437 / 100) (e := 3) (m := 8089590830664253)
      (by norm_num) (by norm_num) (by norm_num) (by norm_num) (by norm_num) (by norm_num)
    rw [this]
    norm_num
  have hfix : toFixed 2 (JSNum.num (8092405580431359 / 562949953421312))
      = JSNum.num (8089590830664253 / 562949953421312) := by
    rw [toFixed_of_nonneg 2 (by norm_num) (by norm_num)]
    have : ⌊(8092405580431359 / 562949953421312 : ℚ) * (10 : ℚ) ^ 2 + 1 / 2⌋ = 1437 := by
      rw [Int.floor_eq_iff]
      constructor <;> norm_num
    rw [this]
    norm_num [hr]
  refine ⟨?_, hr⟩
  simp only [uptimeStats]
  norm_num
  rw [div_num _ (by norm_num), hq, mul_num, hp, hfix]

/-- A TTL of 17 digits: `parseInt` returns the nearest double, here the even
neighbour `2^53` of the odd integer `2^53 + 1`. -/
theorem parsePing_ttl_above_2_53 :
    (parsePing "ttl=9007199254740993").ttl = some (JSNum.num 9007199254740992) := by
  have hb : binade (9007199254740993 : ℚ) = 53 :=
    binade_eq (by norm_num) (by norm_num) (by norm_num)
  have hfl : ⌊(9007199254740993 : ℚ) / 2⌋ = 4503599627370496 := by
    rw [Int.floor_eq_iff]
    constructor <;> norm_num
  have hrhe : roundHalfEven ((9007199254740993 : ℚ) / 2) = 4503599627370496 := by
    unfold roundHalfEven
    rw [hfl]
    norm_num
  have hmag : roundMag (9007199254740993 : ℚ) = 9007199254740992 := by
    unfold roundMag ulp
    rw [hb]
    norm_num [hrhe]
  have hrd : roundDouble (9007199254740993 : ℚ) = JSNum.num 9007199254740992 := by
    rw [roundDouble_finite (by norm_num) (by
      have h1 : (9007199254740993 : ℚ) ≤ (2 : ℚ) ^ (54 : ℤ) := by norm_num
      have h2 : (2 : ℚ) ^ (54 : ℤ) ≤ (2 : ℚ) ^ (1023 : ℤ) :=
        zpow_le_zpow_right₀ (by norm_num) (by norm_num)
      linarith), hmag]
  simp [parsePing, regexCapture, startsWith, parseInt10, digitsValue, Char.isDigit]
  norm_num [hrd]

theorem roundDouble_overflow {x : ℚ} (h : (2 : ℚ) ^ (1024 : ℤ) ≤ x) :
    roundDouble x = JSNum.posInf := by
  have hx : 0 ≤ x := le_trans (by positivity) h
  have hm := roundMag_mono (by positivity) h
  rw [roundMag_exact 1 1024 (by simp) (by norm_num) (by norm_num)] at hm
  unfold roundDouble
  rw [abs_of_nonneg hx, if_pos hm, if_neg (not_lt.mpr hx)]

theorem digitsValue_nines (n : Nat) (a : Nat) :
    (List.replicate n '9').foldl (fun v c => 10 * v + (c.toNat - 48)) a + 1
      = (a + 1) * 10 ^ n := by
  induction n generalizing a with
  | zero => simp
  | succ k ih =>
    rw [List.replicate_succ, List.foldl_cons, ih]
    have : ('9' : Char).toNat - 48 = 9 := by decide
    rw [this, pow_succ]
    ring

theorem parse_nines (n : Nat) (hn : 0 < n) (hbig : (2 : ℚ) ^ (1024 : ℤ) + 1 ≤ (10 : ℚ) ^ n) :
    parseInt10 (List.replicate n '9') = JSNum.posInf ∧
      parseFloat (List.replicate n '9') = JSNum.posInf := by
  have hv : digitsValue (List.replicate n '9') + 1 = 10 ^ n := by
    have := digitsValue_nines n 0
    rw [zero_add, one_mul] at this
    exact this
  have hge : (2 : ℚ) ^ (1024 : ℤ) ≤ (digitsValue (List.replicate n '9') : ℚ) := by
    have h1 : ((digitsValue (List.replicate n '9') + 1 : ℕ) : ℚ) = ((10 ^ n : ℕ) : ℚ) := by
      rw [hv]
    push_cast at h1
    linarith
  have hint : parseInt10 (List.replicate n '9') = JSNum.posInf := roundDouble_overflow hge
  refine ⟨hint, ?_⟩
  have htake : (List.replicate n '9').takeWhile Char.isDigit = List.replicate n '9' := by
    rw [List.takeWhile_eq_self_iff]
    intro c hc
    rw [(List.mem_replicate.mp hc).2]
    decide
  have hne : (List.replicate n '9').isEmpty = false := by
    cases n with
    | zero => exact absurd hn (lt_irrefl _)
    | succ k => rfl
  unfold parseFloat
  simp only [htake, List.length_replicate]
  rw [show List.drop n (List.replicate n '9') = [] by
    rw [List.drop_eq_nil_iff, List.length_replicate]]
  simp only [hne, Bool.false_and, Bool.false_eq_true, if_false, digitsValue, List.foldl_nil,
    List.length_nil, pow_zero, Nat.cast_zero, zero_div, add_zero]
  exact hint

/-- A run of 400 digits: `parseInt` and `parseFloat` overflow to `Infinity`, which
`h.ttl || 0` keeps and `JSON.stringify` writes as `null`. -/
theorem parse_long_digit_run :
    parseInt10 (List.replicate 400 '9') = JSNum.posInf ∧
      parseFloat (List.replicate 400 '9') = JSNum.posInf ∧
      orZero (some JSNum.posInf) = JSNum.posInf ∧
      jsonNum (some JSNum.posInf) = none := by
  have h := parse_nines 400 (by norm_num) (by norm_num)
  exact ⟨h.1, h.2, rfl, rfl⟩

end PingIt
